import Mathlib

/-!
# clair-client: a shallow embedding and its verified properties

The development models the decision logic of `indece-official/clair-client`:

* `src/analyzer/analyzer.go`: `SeverityRanking`, `Analyzer.Load`, `Analyzer.Analyze`;
* `src/docker/docker.go`: `ParseImageIdentifiers`, `parseBearer`, `DockerClient.GetAuthToken`;
* `src/clair/clair.go`: `ClairClient.IndexManifest`;
* `src/main.go`: the index polling loop of `main`.

Conventions.

* A Go `string` is modelled as the sequence of its code points, `List Char` (the strings are
  taken to be valid UTF-8, on which the byte-level library functions used here agree with
  their code-point-level reading, every separator and cut set of the program being ASCII).
* Go `int` values are `Int`; the only arithmetic on them is counting list entries, which cannot
  leave the 64-bit range.
* The Unicode case tables of the Go runtime are a parameter (`CaseTables`); on ASCII the case
  mappings are the ones `unicode.ToUpper` and `unicode.ToLower` hard-code.
* Everything the program obtains from outside (files, HTTP answers, the clock, the order in
  which `range` walks a map) is an explicit argument.
-/

namespace ClairClient

/-! ## Go strings -/

/-- A Go string, as the sequence of its code points. -/
abbrev Str := List Char

/-- The non-ASCII part of the Unicode case mappings (`unicode.To(UpperCase, r)` and
`unicode.To(LowerCase, r)`), which the Go runtime reads from its tables. -/
structure CaseTables where
  upper : Char → Char
  lower : Char → Char

/-- Case tables that leave every non-ASCII code point alone; used for concrete evaluations. -/
def asciiOnly : CaseTables := ⟨id, id⟩

/-- Go `unicode.ToUpper`: ASCII letters are shifted by hand, the rest goes through the table. -/
def unicodeToUpper (T : CaseTables) (r : Char) : Char :=
  if r.toNat ≤ 127 then
    (if 'a' ≤ r ∧ r ≤ 'z' then Char.ofNat (r.toNat - 32) else r)
  else T.upper r

/-- Go `unicode.ToLower`. -/
def unicodeToLower (T : CaseTables) (r : Char) : Char :=
  if r.toNat ≤ 127 then
    (if 'A' ≤ r ∧ r ≤ 'Z' then Char.ofNat (r.toNat + 32) else r)
  else T.lower r

/-- Go `strings.ToUpper`: `unicode.ToUpper` applied to every code point. -/
def ToUpper (T : CaseTables) (s : Str) : Str := s.map (unicodeToUpper T)

/-- Go `strings.ToLower`. -/
def ToLower (T : CaseTables) (s : Str) : Str := s.map (unicodeToLower T)

/-- Go `strings.HasPrefix`. -/
def HasPrefix (s pre : Str) : Bool := pre.isPrefixOf s

/-- Go `strings.TrimLeft(s, cutset)`. -/
def TrimLeft (s cutset : Str) : Str := s.dropWhile (fun c => decide (c ∈ cutset))

/-- Go `strings.TrimRight(s, cutset)`. -/
def TrimRight (s cutset : Str) : Str :=
  (s.reverse.dropWhile (fun c => decide (c ∈ cutset))).reverse

/-- Go `strings.Trim(s, cutset)`. -/
def Trim (s cutset : Str) : Str := TrimLeft (TrimRight s cutset) cutset

/-- Go `strings.Index(s, sep)`: the position of the first occurrence of `sep` in `s`
(`none` for Go's `-1`). -/
def Index (sep : Str) : Str → Option Nat
  | [] => if sep = [] then some 0 else none
  | c :: t => if HasPrefix (c :: t) sep then some 0 else (Index sep t).map (· + 1)

/-- The loop of Go's `strings.genSplit` for a non-empty separator: at most `n` cuts, each at
the first occurrence of `sep` in what is left; the rest is the last piece. -/
def genSplitLoop (sep : Str) : Nat → Str → List Str
  | 0, s => [s]
  | n + 1, s =>
    match Index sep s with
    | none => [s]
    | some m => s.take m :: genSplitLoop sep n (s.drop (m + sep.length))

/-- Go `strings.SplitN(s, sep, n)` for a non-empty `sep` and `n ≥ 0`: `genSplit` caps `n` at
`len(s) + 1` and cuts `n - 1` times. -/
def SplitN (s sep : Str) (n : Nat) : List Str :=
  if n = 0 then [] else genSplitLoop sep (min n (s.length + 1) - 1) s

/-- Go `strings.Split(s, sep)` for a non-empty `sep`: `genSplit` cuts `Count(s, sep)` times;
the loop leaves at the first failing `Index`, so any bound that is at least the count, here
`len(s)`, gives the same pieces. -/
def Split (s sep : Str) : List Str := genSplitLoop sep s.length s

/-- Go `strings.Replace(s, old, new, 1)`: the first occurrence of `old` replaced by `new`. -/
def Replace1 (s old new : Str) : Str :=
  if old = new then s
  else
    match Index old s with
    | none => s
    | some j => s.take j ++ new ++ s.drop (j + old.length)

/-! ## Go maps -/

/-- A Go `map[string]V`, as an association list with distinct keys. The `nil` map and the
empty map are both `[]`: the program only reads from a map that may be `nil`. -/
abbrev GoMap (V : Type) := List (Str × V)

/-- Store `m[k] = v`. -/
def mapSet {V : Type} (m : GoMap V) (k : Str) (v : V) : GoMap V :=
  (k, v) :: m.filter (fun e => decide (e.1 ≠ k))

/-- Read `v, exists := m[k]`; a missing key gives `none` (Go: the zero value and `false`). -/
def mapGet {V : Type} (m : GoMap V) (k : Str) : Option V := m.lookup k

/-! ## `src/analyzer/analyzer.go` -/

/-- The map `SeverityRanking`; `none` is Go's `ok = false`. -/
def SeverityRanking (label : Str) : Option Int :=
  if label = "Unknown".toList then some 0
  else if label = "Negligible".toList then some 1
  else if label = "Low".toList then some 2
  else if label = "Medium".toList then some 3
  else if label = "High".toList then some 4
  else if label = "Critical".toList then some 5
  else none

/-- The generated type `apiclair.Distribution`, with the fields the analyzer reads. -/
structure Distribution where
  PrettyName : Str
  Version : Str
  deriving DecidableEq, Repr

/-- The generated type `apiclair.Package`, with the fields the analyzer reads. -/
structure Package where
  Name : Str
  Version : Str
  deriving DecidableEq, Repr

/-- The generated type `apiclair.Vulnerability`, with the fields the analyzer reads; the
pointer fields are options. -/
structure Vulnerability where
  Name : Str
  NormalizedSeverity : Str
  Distribution : Option Distribution
  Range : Option Str
  Package : Option Package
  FixedInVersion : Str
  deriving DecidableEq, Repr

/-- A vulnerability report: the entries of `Vulnerabilities.AdditionalProperties`, in the
order in which `range` yields them. -/
abbrev VulnerabilityReport := List Vulnerability

structure AnalyzerResultRow where
  VulnerabilityName : Str
  Severity : Str
  ComponentNamespace : Str
  ComponentName : Str
  Version : Str
  FixedIn : Str
  Whitelisted : Bool
  deriving DecidableEq, Repr

structure AnalyzerResult where
  OK : Bool
  Rows : List AnalyzerResultRow
  CountTotal : Int
  CountNotOKWhitelisted : Int
  CountNotOKNotWhitelisted : Int
  deriving DecidableEq, Repr

structure Analyzer where
  whitelist : GoMap Bool
  maxSeverityRank : Int
  deriving DecidableEq, Repr

/-- What `ioutil.ReadFile` reports on failure: whether `os.IsNotExist` holds of the error,
and the text of the error. -/
structure ReadError where
  isNotExist : Bool
  text : Str
  deriving DecidableEq, Repr

/-- The file system as `Analyzer.Load` sees it: `ioutil.ReadFile` on a path. -/
abbrev FileSystem := Str → Except ReadError Str

/-- The body of the loop over the whitelist rows in `Load` (lines 71-81). -/
def loadRow (T : CaseTables) (whitelist : GoMap Bool) (whitelistRow : Str) : GoMap Bool :=
  let whitelistRow := Trim whitelistRow " \t".toList
  if whitelistRow = [] ∨ HasPrefix whitelistRow "#".toList then whitelist
  else mapSet whitelist (ToUpper T whitelistRow) true

/-- The method `Analyzer.Load`: the analyzer after the call and the returned error (`none` is `nil`).
The flags `-whitelist` and `-max-severity` and the file system are arguments. -/
def Analyzer.Load (T : CaseTables) (fs : FileSystem) (flagWhitelist flagMaxSeverity : Str)
    (a : Analyzer) : Analyzer × Option Str :=
  match SeverityRanking flagMaxSeverity with
  | none => ({ a with maxSeverityRank := 0 }, some "invalid maximum severity".toList)
  | some rank =>
    let a : Analyzer := { whitelist := [], maxSeverityRank := rank }
    if flagWhitelist ≠ [] then
      match fs flagWhitelist with
      | .error err =>
        if err.isNotExist then (a, none)
        else (a, some ("error loading whitelist: ".toList ++ err.text))
      | .ok whitelistData =>
        let whitelistRows := Split whitelistData "\n".toList
        ({ a with whitelist := whitelistRows.foldl (loadRow T) a.whitelist }, none)
    else (a, none)

/-- The row that the loop body of `Analyze` builds for one entry (lines 92-129). -/
def analyzeRow (T : CaseTables) (a : Analyzer) (vulnerability : Vulnerability) :
    AnalyzerResultRow :=
  let version : Str := []
  let (componentNamespace, version) :=
    match vulnerability.Distribution with
    | some d => (d.PrettyName, if d.Version ≠ [] then d.Version else version)
    | none => (([] : Str), version)
  let version :=
    match vulnerability.Range with
    | some r => if r ≠ [] then r else version
    | none => version
  let (componentName, version) :=
    match vulnerability.Package with
    | some p => (p.Name, if p.Version ≠ [] then p.Version else version)
    | none => (([] : Str), version)
  let whitelisted :=
    match mapGet a.whitelist (ToUpper T vulnerability.Name) with
    | some ok => ok
    | none => false
  { VulnerabilityName := vulnerability.Name
    Severity := vulnerability.NormalizedSeverity
    ComponentNamespace := componentNamespace
    ComponentName := componentName
    Version := version
    FixedIn := vulnerability.FixedInVersion
    Whitelisted := whitelisted }

/-- The severity rank that the loop body of `Analyze` computes (lines 131-134). -/
def severityRankOf (vulnerability : Vulnerability) : Int :=
  match SeverityRanking vulnerability.NormalizedSeverity with
  | some rank => rank
  | none => 0

/-- One pass of the loop body of `Analyze` (lines 92-146). -/
def analyzeStep (T : CaseTables) (a : Analyzer) (result : AnalyzerResult)
    (vulnerability : Vulnerability) : AnalyzerResult :=
  let row := analyzeRow T a vulnerability
  let severityRank := severityRankOf vulnerability
  let result := { result with CountTotal := result.CountTotal + 1 }
  let result :=
    if severityRank > a.maxSeverityRank then
      if row.Whitelisted then
        { result with CountNotOKWhitelisted := result.CountNotOKWhitelisted + 1 }
      else
        { result with CountNotOKNotWhitelisted := result.CountNotOKNotWhitelisted + 1 }
    else result
  { result with Rows := result.Rows ++ [row] }

/-- The method `Analyzer.Analyze`: the result and error that the function returns. -/
def Analyzer.Analyze (T : CaseTables) (a : Analyzer) (vulnerabilityReport : VulnerabilityReport) :
    Except Str AnalyzerResult :=
  let result : AnalyzerResult :=
    { OK := false, Rows := [], CountTotal := 0, CountNotOKWhitelisted := 0,
      CountNotOKNotWhitelisted := 0 }
  let result := vulnerabilityReport.foldl (analyzeStep T a) result
  .ok { result with OK := decide (result.CountNotOKNotWhitelisted = 0) }

/-- The whitelist of an analyzer as a set of names: the keys stored with value `true`. -/
def Analyzer.whitelisted (a : Analyzer) (name : Str) : Bool :=
  mapGet a.whitelist name = some true

/-- An entry is above the threshold when its rank strictly exceeds the maximum rank. -/
def aboveThreshold (a : Analyzer) (v : Vulnerability) : Bool :=
  decide (severityRankOf v > a.maxSeverityRank)

/-- A finding with the given name and severity label and nothing else attached. -/
def finding (name severity : Str) : Vulnerability :=
  { Name := name, NormalizedSeverity := severity, Distribution := none, Range := none,
    Package := none, FixedInVersion := [] }

/-! ## `src/docker/docker.go`: image references -/

structure ImageIdentifiers where
  Repository : Str
  Tag : Str
  deriving DecidableEq, Repr

/-- The call `RegexpProtocol.ReplaceAllString(s, "")` for the pattern `^(http[s]?://)`: the pattern is
anchored at the start, so the one possible match, a leading `http://` or `https://`, is
removed. -/
def stripProtocol (s : Str) : Str :=
  if HasPrefix s "http://".toList then s.drop 7
  else if HasPrefix s "https://".toList then s.drop 8
  else s

/-- The call `RegexpDoubleSlash.ReplaceAllString(s, "/")` for the pattern `/{2,}`: every maximal run
of two or more slashes becomes one slash (of two adjacent slashes the first is dropped). -/
def collapseSlashes : Str → Str
  | [] => []
  | [c] => [c]
  | c :: d :: rest =>
    if c = '/' ∧ d = '/' then collapseSlashes (d :: rest)
    else c :: collapseSlashes (d :: rest)

/-- The function `ParseImageIdentifiers` (lines 48-81); the error of the `default` arm is the text of
`fmt.Errorf`. -/
def ParseImageIdentifiers (T : CaseTables) (dockerImagePath registryDomain : Str) :
    Except Str ImageIdentifiers :=
  let registryDomain := ToLower T registryDomain
  let registryDomain := stripProtocol registryDomain
  let registryDomain := TrimRight registryDomain "/".toList
  let dockerImagePath := ToLower T dockerImagePath
  let dockerImagePath := stripProtocol dockerImagePath
  let dockerImagePath := collapseSlashes dockerImagePath
  let dockerImagePath :=
    if HasPrefix dockerImagePath registryDomain then
      Replace1 dockerImagePath registryDomain []
    else dockerImagePath
  let dockerImagePathParts := SplitN dockerImagePath ":".toList 2
  match dockerImagePathParts with
  | [part0] => .ok { Repository := Trim part0 "/".toList, Tag := "latest".toList }
  | [part0, part1] => .ok { Repository := Trim part0 "/".toList, Tag := part1 }
  | _ => .error "invalid docker image path".toList

/-- The registry domain as the specification normalizes it: lower-cased, a leading
`http://` or `https://` stripped, trailing `/` trimmed (steps 1, 2 and 4 of the parser). -/
def specNormalizedDomain (T : CaseTables) (registryDomain : Str) : Str :=
  ((stripProtocol (ToLower T registryDomain)).reverse.dropWhile (· = '/')).reverse

/-- The image path after normalization, in the words of the specification: lower-cased, a
leading `http://` or `https://` stripped, repeated `/` collapsed, and the leading
normalized registry domain removed when the path starts with it. -/
def specNormalizedPath (T : CaseTables) (imagePath registryDomain : Str) : Str :=
  let p := collapseSlashes (stripProtocol (ToLower T imagePath))
  let d := specNormalizedDomain T registryDomain
  if d.isPrefixOf p then p.drop d.length else p

/-- Leading and trailing `/` trimmed, in the words of the specification. -/
def specTrimSlashes (s : Str) : Str :=
  ((s.dropWhile (· = '/')).reverse.dropWhile (· = '/')).reverse

/-! ## `src/clair/clair.go`: the index request -/

/-- The constant `IndexStatusFinished`. -/
def IndexStatusFinished : Str := "IndexFinished".toList

/-- The type `distribution.Descriptor` of the manifest library, with the fields read here. -/
structure Descriptor where
  Digest : Str
  URLs : List Str
  deriving DecidableEq, Repr

/-- The type `schema2.DeserializedManifest`, with the fields read here. -/
structure DeserializedManifest where
  Config : Descriptor
  Layers : List Descriptor
  deriving DecidableEq, Repr

/-- The generated type `apiclair.Layer`; `Headers` is `Headers.AdditionalProperties`. -/
structure Layer where
  Hash : Str
  Uri : Str
  Headers : GoMap (List Str)
  deriving DecidableEq, Repr

/-- The generated type `apiclair.IndexJSONRequestBody`. -/
structure IndexJSONRequestBody where
  Hash : Str
  Layers : List Layer
  deriving DecidableEq, Repr

/-- The generated type `apiclair.IndexReport`, with the fields read here. -/
structure IndexReport where
  State : Str
  Err : Str
  deriving DecidableEq, Repr

/-- What a request to clair comes back with: the transport error of the HTTP client, or a
response with `IsSuccess()`, the text `StatusCode() Status() - Body()` used in messages, and
what `json.Unmarshal` makes of the body. -/
inductive ClairAnswer where
  | transportError (err : Str)
  | response (isSuccess : Bool) (statusText : Str) (decoded : Except Str IndexReport)
  deriving Repr

/-- One pass of the loop over the manifest layers in `IndexManifest` (lines 55-81). -/
def indexLayerStep (imageIdentifiers : ImageIdentifiers) (dockerRegistry dockerAuthToken : Str)
    (layers : List Layer) (manifestLayer : Descriptor) : List Layer :=
  let uri : Str :=
    if manifestLayer.URLs.length ≤ 0 then
      dockerRegistry ++ "/v2/".toList ++ imageIdentifiers.Repository ++ "/blobs/".toList ++
        manifestLayer.Digest
    else manifestLayer.URLs.headD []
  let headers : GoMap (List Str) := []
  let headers :=
    if dockerAuthToken ≠ [] then mapSet headers "Authorization".toList [dockerAuthToken]
    else headers
  layers ++ [{ Hash := manifestLayer.Digest, Uri := uri, Headers := headers }]

/-- The request body that `IndexManifest` builds (lines 50-82). -/
def indexRequestBody (manifest : DeserializedManifest) (imageIdentifiers : ImageIdentifiers)
    (dockerRegistry dockerAuthToken : Str) : IndexJSONRequestBody :=
  { Hash := manifest.Config.Digest
    Layers := manifest.Layers.foldl
      (indexLayerStep imageIdentifiers dockerRegistry dockerAuthToken) [] }

/-- How `IndexManifest` and `GetIndexManifestStatus` read an answer of clair; `what` is the
start of the messages (lines 87-106 and 113-132). -/
def indexAnswer (what whatDecode : Str) : ClairAnswer → Except Str Str
  | .transportError err => .error (what ++ ": ".toList ++ err)
  | .response isSuccess statusText decoded =>
    if ¬ isSuccess then .error (what ++ ": ".toList ++ statusText)
    else
      match decoded with
      | .error err => .error (whatDecode ++ ": ".toList ++ err)
      | .ok responseBody =>
        if responseBody.Err ≠ [] then
          .error ("indexing manifest in clair failed: ".toList ++ responseBody.Err)
        else .ok responseBody.State

/-- The method `ClairClient.IndexManifest`: `post` is the POST of a body to a URL. -/
def IndexManifest (post : Str → IndexJSONRequestBody → ClairAnswer) (flagClairUrl : Str)
    (manifest : DeserializedManifest) (imageIdentifiers : ImageIdentifiers)
    (dockerRegistry dockerAuthToken : Str) : Except Str Str :=
  let url := flagClairUrl ++ "/indexer/api/v1/index_report".toList
  let requestBody := indexRequestBody manifest imageIdentifiers dockerRegistry dockerAuthToken
  indexAnswer "can't index manifest in clair".toList
    "can't decode clair index manifest response body".toList (post url requestBody)

/-- The method `ClairClient.GetIndexManifestStatus`: `get` is the GET of a URL. -/
def GetIndexManifestStatus (get : Str → ClairAnswer) (flagClairUrl hash : Str) :
    Except Str Str :=
  let url := flagClairUrl ++ "/indexer/api/v1/index_report/".toList ++ hash
  indexAnswer "can't get index manifest status from clair".toList
    "can't decode clair index manifest status response body".toList (get url)

/-! ## `src/main.go`: waiting for the index -/

/-- A Go `int64` product, wrapped to 64 bits. -/
def wrapInt64 (x : Int) : Int := (x + 2 ^ 63) % 2 ^ 64 - 2 ^ 63

/-- The duration `timeoutIndex` of `main`, in nanoseconds:
`time.Duration(*flagIndexTimeout) * time.Second`. -/
def timeoutIndex (flagIndexTimeout : Int) : Int := wrapInt64 (flagIndexTimeout * 1000000000)

/-- Where the index wait of `main` leaves the run: at the retrieval of the vulnerability
report (line 168) or at `os.Exit(1)` after a message on standard error. -/
inductive WaitOutcome where
  | retrieveReport
  | exit1 (stderr : Str)
  deriving DecidableEq, Repr

/-- A finished index wait: the outcome, the last value of `indexStatus`, and how often
`GetIndexManifestStatus` and `time.Sleep` were called. -/
structure WaitRun where
  outcome : WaitOutcome
  indexStatus : Str
  polls : Nat
  sleeps : Nat
  deriving DecidableEq, Repr

/-- Lines 156-168 of `main`: after the loop, only the status `IndexFinished` goes on. -/
def afterWait (indexStatus : Str) (polls sleeps : Nat) : WaitRun :=
  if indexStatus ≠ IndexStatusFinished then
    { outcome := .exit1 ("Error indexing manifest in clair - index status is ".toList ++
        indexStatus ++ "\n".toList),
      indexStatus := indexStatus, polls := polls, sleeps := sleeps }
  else { outcome := .retrieveReport, indexStatus := indexStatus, polls := polls, sleeps := sleeps }

/-- The loop of lines 139-154 followed by lines 156-168. `clock i` is the value of
`time.Since(startIndexTime)` at the `i`-th test of the loop condition and `status i` what the
`i`-th call of `GetIndexManifestStatus` returns (counting from 0); `fuel` bounds the number of
tests of the loop condition, and `none` means that the bound was too small. A failing poll
leaves `indexStatus` empty, as the callee returns the empty string with its error. -/
def waitLoop (clock : Nat → Int) (status : Nat → Except Str Str) (timeout : Int) :
    Nat → Nat → Str → Option WaitRun
  | 0, _, _ => none
  | fuel + 1, i, indexStatus =>
    if clock i < timeout then
      if indexStatus = IndexStatusFinished then some (afterWait indexStatus i i)
      else
        match status i with
        | .error err =>
          some { outcome := .exit1
                   ("Error getting indexing manifest status from clair: ".toList ++ err ++
                     "\n".toList),
                 indexStatus := [], polls := i + 1, sleeps := i + 1 }
        | .ok indexStatus => waitLoop clock status timeout fuel (i + 1) indexStatus
    else some (afterWait indexStatus i i)

/-- The index wait of `main` from the status that `IndexManifest` returned. -/
def indexWait (flagIndexTimeout : Int) (clock : Nat → Int) (status : Nat → Except Str Str)
    (fuel : Nat) (indexStatus : Str) : Option WaitRun :=
  waitLoop clock status (timeoutIndex flagIndexTimeout) fuel 0 indexStatus

/-- The status that the wait holds after `i` successful polls: the status that
`IndexManifest` returned, then what the polls returned. -/
def observedStatus (initial : Str) (polled : Nat → Str) : Nat → Str
  | 0 => initial
  | i + 1 => polled i

/-! ## `src/docker/docker.go`: the registry authentication -/

/-- The double quote. -/
def dquote : Char := Char.ofNat 34

/-- Go `strings.Replace(s, old, "", -1)` for a one-character `old`: every occurrence of the
character is removed. -/
def removeAll (c : Char) (s : Str) : Str := s.filter (fun x => decide (x ≠ c))

/-- The body of the inner loop of `parseBearer` (lines 34-42). -/
def parseBearerParam (out : GoMap Str) (params : Str) : GoMap Str :=
  let fields := Split params "=".toList
  match fields with
  | key :: field1 :: _ =>
    if key = [] then out
    else mapSet out key (removeAll dquote field1)
  | _ => out

/-- The body of the outer loop of `parseBearer` (lines 30-43). -/
def parseBearerSegment (out : GoMap Str) (s : Str) : GoMap Str :=
  if s = "Bearer".toList then out
  else (Split s ",".toList).foldl parseBearerParam out

/-- The function `parseBearer`. -/
def parseBearer (bearer : Str) : GoMap Str :=
  (Split bearer " ".toList).foldl parseBearerSegment []

/-- How a Go call ends: with a value, with a returned error, or in a run-time panic. -/
inductive Outcome (α : Type) where
  | ok (value : α)
  | error (msg : Str)
  | panic (msg : Str)
  deriving DecidableEq, Repr

/-- The fields of `http.Request` that `GetAuthToken` sets. `Header` is a Go map and `none`
is the `nil` map, which is what a struct literal that does not mention the field leaves. -/
structure HttpRequest where
  Method : Str
  URL : Str
  Header : Option (GoMap (List Str))
  deriving DecidableEq, Repr

/-- Go `http.Header.Set`, that is the map store `h[key] = []string{value}` (the key
`Authorization` is already in canonical form): storing into a `nil` map panics. -/
def headerSet (req : HttpRequest) (key value : Str) : Outcome HttpRequest :=
  match req.Header with
  | none => .panic "assignment to entry in nil map".toList
  | some h => .ok { req with Header := some (mapSet h key [value]) }

/-- A value that `json.Unmarshal` stores in an `interface{}`; of arrays and objects only the
kind is kept, the program asks no more than whether the value is a string. -/
inductive JSONValue where
  | string (s : Str)
  | number
  | bool (b : Bool)
  | null
  | array
  | object
  deriving DecidableEq, Repr

/-- What the realm request comes back with: an error of `http.DefaultClient.Do`, an error
of `ioutil.ReadAll` on the body, an error of `json.Unmarshal`, or the decoded JSON object. -/
inductive RealmAnswer where
  | doError (err : Str)
  | readError (err : Str)
  | decodeError (err : Str)
  | object (bodyJSON : GoMap JSONValue)
  deriving DecidableEq, Repr

/-- The surroundings of `GetAuthToken`: the probe `GET <url>` (its error, or the
`Www-Authenticate` header of the response, empty when absent), the realm server,
`url.Parse`, `base64.StdEncoding.EncodeToString`, and the order in which `range` walks the
challenge parameters. -/
structure AuthEnv where
  probe : Str → Except Str Str
  realm : HttpRequest → RealmAnswer
  urlParse : Str → Except Str Str
  base64 : Str → Str
  rangeOrder : GoMap Str → List (Str × Str)

/-- A run of `GetAuthToken`: the realm requests that were sent, each with its answer, and how
the call ended. -/
structure AuthRun where
  exchanges : List (HttpRequest × RealmAnswer)
  outcome : Outcome Str
  deriving DecidableEq, Repr

/-- The realm URL text that `GetAuthToken` builds (lines 159-162). -/
def realmURLString (env : AuthEnv) (params : GoMap Str) : Str :=
  let urlRealmStr := (match mapGet params "realm".toList with
    | some realm => realm
    | none => []) ++ "?".toList
  (env.rangeOrder params).foldl
    (fun acc kv => acc ++ (kv.1 ++ "=".toList ++ kv.2 ++ "&".toList)) urlRealmStr

/-- The request `req` of `GetAuthToken` as it stands before `http.DefaultClient.Do`
(lines 168-176). -/
def realmRequest (env : AuthEnv) (urlRealm flagDockerUsername flagDockerPassword : Str) :
    Outcome HttpRequest :=
  let req : HttpRequest := { Method := "GET".toList, URL := urlRealm, Header := none }
  if flagDockerUsername ≠ [] ∧ flagDockerPassword ≠ [] then
    let credentials := flagDockerUsername ++ ":".toList ++ flagDockerPassword
    let credentialsBase64 := env.base64 credentials
    headerSet req "Authorization".toList ("Basic ".toList ++ credentialsBase64)
  else .ok req

/-- How `GetAuthToken` reads the answer of the realm (lines 178-204). -/
def realmToken : RealmAnswer → Outcome Str
  | .doError err => .error ("docker auth realm request failed: ".toList ++ err)
  | .readError err => .error ("can't read auth realm response: ".toList ++ err)
  | .decodeError err => .error ("can't decode auth realm response: ".toList ++ err)
  | .object bodyJSON =>
    match mapGet bodyJSON "token".toList with
    | none => .error "missing token in auth realm response".toList
    | some (.string token) => .ok ("Bearer ".toList ++ token)
    | some _ => .error "invalid token in auth realm response".toList

/-- The method `DockerClient.GetAuthToken`; `registryURL` is `d.registry.URL`. -/
def GetAuthToken (T : CaseTables) (env : AuthEnv)
    (registryURL flagDockerUsername flagDockerPassword : Str) : AuthRun :=
  let urlReq := registryURL ++ "/v2/".toList
  match env.probe urlReq with
  | .error err =>
    { exchanges := [], outcome := .error ("docker auth request failed: ".toList ++ err) }
  | .ok wwwAuthenticate =>
    if wwwAuthenticate = [] then { exchanges := [], outcome := .ok [] }
    else if HasPrefix (ToUpper T wwwAuthenticate) "BASIC".toList then
      let credentials := flagDockerUsername ++ ":".toList ++ flagDockerPassword
      let credentialsBase64 := env.base64 credentials
      { exchanges := [], outcome := .ok ("Basic ".toList ++ credentialsBase64) }
    else if HasPrefix (ToUpper T wwwAuthenticate) "BEARER".toList then
      let params := parseBearer wwwAuthenticate
      match env.urlParse (realmURLString env params) with
      | .error err =>
        { exchanges := [],
          outcome := .error ("can't prepare url for docker auth request: ".toList ++ err) }
      | .ok urlRealm =>
        match realmRequest env urlRealm flagDockerUsername flagDockerPassword with
        | .panic msg => { exchanges := [], outcome := .panic msg }
        | .error msg => { exchanges := [], outcome := .error msg }
        | .ok req =>
          { exchanges := [(req, env.realm req)], outcome := realmToken (env.realm req) }
    else
      { exchanges := [],
        outcome := .error ("unsupported auth method ".toList ++ wwwAuthenticate) }

/-! ## Concrete inputs -/

/-- A whitelist file: a comment, a blank line, and one name in lower case between blanks. -/
def exampleWhitelist : Str := "# accepted\n\n \tcve-2021-1234 \n".toList

/-- A file system in which every path holds `exampleWhitelist`. -/
def exampleFileSystem : FileSystem := fun _ => .ok exampleWhitelist

/-- The challenge `Bearer realm="https://auth.example/token",service="registry"`. -/
def exampleChallenge : Str :=
  "Bearer realm=".toList ++ [dquote] ++ "https://auth.example/token".toList ++ [dquote] ++
    ",service=".toList ++ [dquote] ++ "registry".toList ++ [dquote]

/-- A registry that answers the probe with a Bearer challenge, and a realm that answers
every request with the token `abc`. -/
def exampleAuthEnv : AuthEnv :=
  { probe := fun _ => .ok exampleChallenge
    realm := fun _ => .object [("token".toList, .string "abc".toList)]
    urlParse := fun s => .ok s
    base64 := fun s => s
    rangeOrder := fun m => m }

/-! ## Challenge headers -/

/-- One challenge parameter as the header writes it: the key, `=`, and the value between
double quotes. -/
def challengeParam (kv : Str × Str) : Str :=
  kv.1 ++ "=".toList ++ [dquote] ++ kv.2 ++ [dquote]

/-- The challenge header with the given parameters: the word `Bearer`, a space, and the
parameters separated by commas. -/
def challengeHeader (pairs : List (Str × Str)) : Str :=
  "Bearer ".toList ++ List.intercalate ",".toList (pairs.map challengeParam)

/-- The parameters of `exampleChallenge`. -/
def exampleParams : List (Str × Str) :=
  [("realm".toList, "https://auth.example/token".toList),
    ("service".toList, "registry".toList)]

/-! ## Lemmas: Go maps -/

theorem lookup_filter_ne {V : Type} (m : GoMap V) (k k2 : Str) (h : k2 ≠ k) :
    List.lookup k2 (m.filter (fun e => decide (e.1 ≠ k))) = List.lookup k2 m := by
  induction m with
  | nil => rfl
  | cons e m ih =>
    obtain ⟨ek, ev⟩ := e
    by_cases hek : ek = k
    · subst hek
      have hne : (k2 == ek) = false := by simpa using h
      rw [List.filter_cons_of_neg (by simp), ih, List.lookup_cons, hne]
    · rw [List.filter_cons_of_pos (by simpa using hek), List.lookup_cons, List.lookup_cons, ih]

theorem mapGet_mapSet {V : Type} (m : GoMap V) (k k2 : Str) (v : V) :
    mapGet (mapSet m k v) k2 = if k2 = k then some v else mapGet m k2 := by
  unfold mapGet mapSet
  by_cases h : k2 = k
  · subst h; simp [List.lookup]
  · have hne : (k2 == k) = false := by simpa using h
    rw [List.lookup_cons, hne, if_neg h]
    exact lookup_filter_ne m k k2 h

/-! ## Lemmas: the analyzer -/

theorem analyzeRow_whitelisted (T : CaseTables) (a : Analyzer) (v : Vulnerability) :
    (analyzeRow T a v).Whitelisted = a.whitelisted (ToUpper T v.Name) := by
  unfold analyzeRow Analyzer.whitelisted
  cases h : mapGet a.whitelist (ToUpper T v.Name) with
  | none => simp
  | some b => cases b <;> simp

theorem analyzeRow_name (T : CaseTables) (a : Analyzer) (v : Vulnerability) :
    (analyzeRow T a v).VulnerabilityName = v.Name ∧
      (analyzeRow T a v).Severity = v.NormalizedSeverity := by
  unfold analyzeRow; exact ⟨rfl, rfl⟩

/-- What the loop of `Analyze` has added to a result after a whole report. -/
theorem foldl_analyzeStep (T : CaseTables) (a : Analyzer) (report : VulnerabilityReport) :
    ∀ r : AnalyzerResult,
      (report.foldl (analyzeStep T a) r).OK = r.OK ∧
      (report.foldl (analyzeStep T a) r).Rows = r.Rows ++ report.map (analyzeRow T a) ∧
      (report.foldl (analyzeStep T a) r).CountTotal = r.CountTotal + report.length ∧
      (report.foldl (analyzeStep T a) r).CountNotOKWhitelisted =
        r.CountNotOKWhitelisted +
          report.countP (fun v => aboveThreshold a v && a.whitelisted (ToUpper T v.Name)) ∧
      (report.foldl (analyzeStep T a) r).CountNotOKNotWhitelisted =
        r.CountNotOKNotWhitelisted +
          report.countP (fun v => aboveThreshold a v && !a.whitelisted (ToUpper T v.Name)) := by
  induction report with
  | nil => intro r; simp
  | cons v vs ih =>
    intro r
    simp only [List.foldl_cons]
    obtain ⟨h1, h2, h3, h4, h5⟩ := ih (analyzeStep T a r v)
    rw [h1, h2, h3, h4, h5]
    have hw := analyzeRow_whitelisted T a v
    by_cases hab : severityRankOf v > a.maxSeverityRank
    · cases hwl : a.whitelisted (ToUpper T v.Name)
      · rw [hwl] at hw
        simp [analyzeStep, hab, hw, hwl, aboveThreshold, List.countP_cons]
        omega
      · rw [hwl] at hw
        simp [analyzeStep, hab, hw, hwl, aboveThreshold, List.countP_cons]
        omega
    · simp [analyzeStep, hab, aboveThreshold, List.countP_cons]
      omega


/-- The result that `Analyze` returns, in closed form. -/
theorem analyze_eq (T : CaseTables) (a : Analyzer) (report : VulnerabilityReport) :
    ∃ result, a.Analyze T report = .ok result ∧
      result.OK = decide (result.CountNotOKNotWhitelisted = 0) ∧
      result.Rows = report.map (analyzeRow T a) ∧
      result.CountTotal = report.length ∧
      result.CountNotOKWhitelisted =
        report.countP (fun v => aboveThreshold a v && a.whitelisted (ToUpper T v.Name)) ∧
      result.CountNotOKNotWhitelisted =
        report.countP (fun v => aboveThreshold a v && !a.whitelisted (ToUpper T v.Name)) := by
  obtain ⟨_, h2, h3, h4, h5⟩ := foldl_analyzeStep T a report
    { OK := false, Rows := [], CountTotal := 0, CountNotOKWhitelisted := 0,
      CountNotOKNotWhitelisted := 0 }
  refine ⟨_, rfl, rfl, ?_, ?_, ?_, ?_⟩
  · simpa using h2
  · simpa using h3
  · simpa using h4
  · simpa using h5

/-- A label outside the six of `SeverityRanking` is not in the map. -/
theorem severityRanking_none_of_not_mem (label : Str)
    (hl : label ∉ ["Unknown".toList, "Negligible".toList, "Low".toList, "Medium".toList,
      "High".toList, "Critical".toList]) : SeverityRanking label = none := by
  simp only [List.mem_cons, List.mem_singleton, not_or, List.not_mem_nil, or_false] at hl
  obtain ⟨h0, h1, h2, h3, h4, h5⟩ := hl
  unfold SeverityRanking
  rw [if_neg h0, if_neg h1, if_neg h2, if_neg h3, if_neg h4, if_neg h5]

/-! ## The analyzer: verdict and counters -/

/-- C1: for every analyzer state and every report, `Analyze` returns no error, and the
result has `OK = true` exactly when `CountNotOKNotWhitelisted = 0`, which is exactly when
every entry whose severity rank strictly exceeds the maximum rank has its upper-cased name
whitelisted. A report without entries is OK, and a single `High` finding under maximum
severity `Medium` is counted as not-ok, but, when whitelisted, only in
`CountNotOKWhitelisted`, leaving `OK = true`. -/
theorem C1_analyze_ok_iff (T : CaseTables) (a : Analyzer) (report : VulnerabilityReport) :
    (∃ result, a.Analyze T report = .ok result ∧
      (result.OK = true ↔ result.CountNotOKNotWhitelisted = 0) ∧
      (result.OK = true ↔
        ∀ v ∈ report, severityRankOf v > a.maxSeverityRank →
          a.whitelisted (ToUpper T v.Name) = true) ∧
      (report = [] → result.OK = true)) ∧
    (∀ name : Str, SeverityRanking "Medium".toList = some a.maxSeverityRank →
      ∃ result, a.Analyze T [finding name "High".toList] = .ok result ∧
        result.CountTotal = 1 ∧
        (a.whitelisted (ToUpper T name) = true →
          result.OK = true ∧ result.CountNotOKWhitelisted = 1 ∧
            result.CountNotOKNotWhitelisted = 0) ∧
        (a.whitelisted (ToUpper T name) = false →
          result.OK = false ∧ result.CountNotOKWhitelisted = 0 ∧
            result.CountNotOKNotWhitelisted = 1)) := by
  constructor
  · obtain ⟨result, hres, hok, -, -, -, hnn⟩ := analyze_eq T a report
    refine ⟨result, hres, ?_, ?_, ?_⟩
    · rw [hok]; simp
    · rw [hok, hnn]
      simp only [decide_eq_true_eq, Nat.cast_eq_zero, List.countP_eq_zero, aboveThreshold,
        Bool.and_eq_true, Bool.not_eq_true', not_and, Bool.not_eq_false, gt_iff_lt]
    · intro h; subst h; rw [hok, hnn]; simp
  · intro name hm
    obtain ⟨result, hres, hok, -, htot, hw, hnn⟩ := analyze_eq T a [finding name "High".toList]
    have hmed : a.maxSeverityRank = 3 := by
      have : SeverityRanking "Medium".toList = some 3 := by decide
      rw [this] at hm; exact (Option.some.inj hm).symm
    have hhigh : severityRankOf (finding name "High".toList) = 4 := by
      unfold severityRankOf finding
      have : SeverityRanking "High".toList = some 4 := by decide
      simp only [this]
    have habove : aboveThreshold a (finding name "High".toList) = true := by
      unfold aboveThreshold; rw [hhigh, hmed]; decide
    have hname : (finding name "High".toList).Name = name := rfl
    refine ⟨result, hres, by simpa using htot, ?_, ?_⟩
    · intro hwl
      rw [hok, hnn, hw]
      simp only [List.countP_cons, List.countP_nil, habove, hname, hwl]
      decide
    · intro hwl
      rw [hok, hnn, hw]
      simp only [List.countP_cons, List.countP_nil, habove, hname, hwl]
      decide

/-- C2: for every analyzer state and every report with `n` entries, `Analyze` returns
`CountTotal = n = len(Rows)`, `CountNotOKWhitelisted` = the number of entries whose rank
exceeds the maximum rank and whose upper-cased name is whitelisted, and
`CountNotOKNotWhitelisted` = the number of such entries that are not whitelisted; the two
not-ok counters together never exceed `CountTotal`. The rank of a label is its value in
`SeverityRanking` (`Unknown` 0 up to `Critical` 5, no other label present) and 0 for
every other label; an entry whose rank equals the maximum rank is never counted as
not-ok, nor is an entry with an unrecognized label under a maximum rank that is a rank. -/
theorem C2_analyze_counts (T : CaseTables) (a : Analyzer) (report : VulnerabilityReport) :
    (∃ result, a.Analyze T report = .ok result ∧
      result.CountTotal = report.length ∧
      result.Rows.length = report.length ∧
      result.CountNotOKWhitelisted =
        report.countP (fun v =>
          decide (severityRankOf v > a.maxSeverityRank) &&
            a.whitelisted (ToUpper T v.Name)) ∧
      result.CountNotOKNotWhitelisted =
        report.countP (fun v =>
          decide (severityRankOf v > a.maxSeverityRank) &&
            !a.whitelisted (ToUpper T v.Name)) ∧
      result.CountNotOKWhitelisted + result.CountNotOKNotWhitelisted ≤ result.CountTotal) ∧
    (SeverityRanking "Unknown".toList = some 0 ∧ SeverityRanking "Negligible".toList = some 1 ∧
      SeverityRanking "Low".toList = some 2 ∧ SeverityRanking "Medium".toList = some 3 ∧
      SeverityRanking "High".toList = some 4 ∧ SeverityRanking "Critical".toList = some 5 ∧
      ∀ label : Str,
        label ∉ ["Unknown".toList, "Negligible".toList, "Low".toList, "Medium".toList,
          "High".toList, "Critical".toList] →
        SeverityRanking label = none) ∧
    (∀ v : Vulnerability,
      (SeverityRanking v.NormalizedSeverity = none → severityRankOf v = 0) ∧
      (∀ rank, SeverityRanking v.NormalizedSeverity = some rank → severityRankOf v = rank) ∧
      (severityRankOf v = a.maxSeverityRank → aboveThreshold a v = false) ∧
      (SeverityRanking v.NormalizedSeverity = none → 0 ≤ a.maxSeverityRank →
        aboveThreshold a v = false)) := by
  refine ⟨?_, ?_, ?_⟩
  · obtain ⟨result, hres, -, hrows, htot, hw, hnn⟩ := analyze_eq T a report
    refine ⟨result, hres, htot, by rw [hrows, List.length_map], hw, hnn, ?_⟩
    rw [hw, hnn, htot]
    have hle := List.countP_le_length
      (fun v => aboveThreshold a v) (l := report)
    have hsplit : report.countP (fun v => aboveThreshold a v && a.whitelisted (ToUpper T v.Name))
        + report.countP (fun v => aboveThreshold a v && !a.whitelisted (ToUpper T v.Name))
        = report.countP (fun v => aboveThreshold a v) := by
      clear hres hrows htot hw hnn hle
      induction report with
      | nil => rfl
      | cons v vs ih =>
        simp only [List.countP_cons]
        cases aboveThreshold a v <;> cases a.whitelisted (ToUpper T v.Name) <;>
          simp <;> omega
    have : ((report.countP (fun v => aboveThreshold a v && a.whitelisted (ToUpper T v.Name))
        + report.countP (fun v => aboveThreshold a v && !a.whitelisted (ToUpper T v.Name)) :
          Nat) : Int) ≤ (report.length : Int) := by
      rw [hsplit]; exact_mod_cast hle
    exact_mod_cast this
  · refine ⟨by decide, by decide, by decide, by decide, by decide, by decide, ?_⟩
    intro label hl
    simp only [List.mem_cons, List.mem_singleton, not_or, List.not_mem_nil, or_false] at hl
    obtain ⟨h0, h1, h2, h3, h4, h5⟩ := hl
    unfold SeverityRanking
    rw [if_neg h0, if_neg h1, if_neg h2, if_neg h3, if_neg h4, if_neg h5]
  · intro v
    refine ⟨?_, ?_, ?_, ?_⟩
    · intro h; unfold severityRankOf; rw [h]
    · intro rank h; unfold severityRankOf; rw [h]
    · intro h; unfold aboveThreshold; rw [h]; simp
    · intro h hm; unfold aboveThreshold severityRankOf; rw [h]; simpa using hm


/-! ## The analyzer: loading and whitelist matching -/

/-- What the loop of `Load` over the whitelist rows stores: a name is whitelisted afterwards
exactly when it was before or some kept row upper-cases to it. -/
theorem foldl_loadRow_get (T : CaseTables) (rows : List Str) :
    ∀ (m : GoMap Bool) (k : Str),
      mapGet (rows.foldl (loadRow T) m) k = some true ↔
        (mapGet m k = some true ∨
          ∃ row ∈ rows, Trim row " \t".toList ≠ [] ∧
            HasPrefix (Trim row " \t".toList) "#".toList = false ∧
            ToUpper T (Trim row " \t".toList) = k) := by
  induction rows with
  | nil => intro m k; simp
  | cons row rows ih =>
    intro m k
    rw [List.foldl_cons, ih]
    have hstep : mapGet (loadRow T m row) k = some true ↔
        (mapGet m k = some true ∨
          (Trim row " \t".toList ≠ [] ∧
            HasPrefix (Trim row " \t".toList) "#".toList = false ∧
            ToUpper T (Trim row " \t".toList) = k)) := by
      unfold loadRow
      by_cases hskip : Trim row " \t".toList = [] ∨
          HasPrefix (Trim row " \t".toList) "#".toList = true
      · simp only [hskip, if_true]
        constructor
        · intro h; exact Or.inl h
        · rintro (h | ⟨h1, h2, -⟩)
          · exact h
          · rcases hskip with h | h
            · exact absurd h h1
            · rw [h] at h2; exact absurd h2 (by decide)
      · simp only [hskip, if_false]
        rw [mapGet_mapSet]
        push_neg at hskip
        obtain ⟨h1, h2⟩ := hskip
        have h2 : HasPrefix (Trim row " \t".toList) "#".toList = false := by
          simpa using h2
        by_cases hk : k = ToUpper T (Trim row " \t".toList)
        · simp only [hk, if_true, true_iff]
          exact Or.inr ⟨h1, h2, trivial⟩
        · simp only [if_neg hk]
          constructor
          · intro h; exact Or.inl h
          · rintro (h | ⟨-, -, h⟩)
            · exact h
            · exact absurd h.symm hk
    rw [hstep]
    constructor
    · rintro ((h | h) | ⟨r, hr, h⟩)
      · exact Or.inl h
      · exact Or.inr ⟨row, List.mem_cons_self _ _, h⟩
      · exact Or.inr ⟨r, List.mem_cons_of_mem _ hr, h⟩
    · rintro (h | ⟨r, hr, h⟩)
      · exact Or.inl (Or.inl h)
      · rcases List.mem_cons.mp hr with rfl | hr
        · exact Or.inl (Or.inr h)
        · exact Or.inr ⟨r, hr, h⟩

/-- C3: after `Load` has read the whitelist content `c` (a whitelist path is configured,
reading it gives `c`, the severity label is known), `Load` reports no error and `Analyze`
sets `Whitelisted = true` on the row of a finding exactly when some line of `c` (as
separated by the line feed, spaces and tabs trimmed from both ends) is non-empty, does not
start with `#`, and has the same upper-casing as the name of the finding. -/
theorem C3_whitelist_matching (T : CaseTables) (fs : FileSystem)
    (flagWhitelist flagMaxSeverity : Str) (a0 : Analyzer) (c : Str)
    (hflag : flagWhitelist ≠ []) (hread : fs flagWhitelist = .ok c)
    (hlabel : SeverityRanking flagMaxSeverity ≠ none) :
    (Analyzer.Load T fs flagWhitelist flagMaxSeverity a0).2 = none ∧
    ∀ report : VulnerabilityReport,
      ∃ result,
        (Analyzer.Load T fs flagWhitelist flagMaxSeverity a0).1.Analyze T report = .ok result ∧
        List.Forall₂
          (fun v row =>
            row.VulnerabilityName = v.Name ∧
            (row.Whitelisted = true ↔
              ∃ line ∈ Split c "\n".toList,
                Trim line " \t".toList ≠ [] ∧
                HasPrefix (Trim line " \t".toList) "#".toList = false ∧
                ToUpper T (Trim line " \t".toList) = ToUpper T v.Name))
          report result.Rows := by
  obtain ⟨rank, hrank⟩ := Option.ne_none_iff_exists'.mp hlabel
  have hload : Analyzer.Load T fs flagWhitelist flagMaxSeverity a0 =
      ({ whitelist := (Split c "\n".toList).foldl (loadRow T) [], maxSeverityRank := rank },
        none) := by
    unfold Analyzer.Load
    simp only [hrank, hflag, ne_eq, not_false_eq_true, if_true, hread]
  rw [hload]
  refine ⟨rfl, ?_⟩
  intro report
  obtain ⟨result, hres, -, hrows, -, -, -⟩ := analyze_eq T
    { whitelist := (Split c "\n".toList).foldl (loadRow T) [], maxSeverityRank := rank } report
  refine ⟨result, hres, ?_⟩
  rw [hrows, List.forall₂_map_right_iff, List.forall₂_same]
  intro v _
  refine ⟨(analyzeRow_name T _ v).1, ?_⟩
  rw [analyzeRow_whitelisted]
  unfold Analyzer.whitelisted
  simp only [decide_eq_true_eq]
  rw [foldl_loadRow_get]
  simp [mapGet]

/-- C9: `Load` fails exactly when the severity label is not one of the six labels of
`SeverityRanking`, or a whitelist path is configured and reading it fails with an error
that is not a missing file. With a known label and a whitelist path that is empty or names
a missing file, `Load` succeeds with an empty whitelist; on every success the maximum rank
is the rank of the label, between 0 and 5. -/
theorem C9_load_fails_iff (T : CaseTables) (fs : FileSystem)
    (flagWhitelist flagMaxSeverity : Str) (a0 : Analyzer) :
    ((Analyzer.Load T fs flagWhitelist flagMaxSeverity a0).2 ≠ none ↔
      (flagMaxSeverity ∉ ["Unknown".toList, "Negligible".toList, "Low".toList,
          "Medium".toList, "High".toList, "Critical".toList] ∨
        (flagWhitelist ≠ [] ∧
          ∃ err, fs flagWhitelist = .error err ∧ err.isNotExist = false))) ∧
    (flagMaxSeverity ∈ ["Unknown".toList, "Negligible".toList, "Low".toList,
          "Medium".toList, "High".toList, "Critical".toList] →
      (flagWhitelist = [] ∨ ∃ err, fs flagWhitelist = .error err ∧ err.isNotExist = true) →
      (Analyzer.Load T fs flagWhitelist flagMaxSeverity a0).2 = none ∧
        (Analyzer.Load T fs flagWhitelist flagMaxSeverity a0).1.whitelist = []) ∧
    ((Analyzer.Load T fs flagWhitelist flagMaxSeverity a0).2 = none →
      SeverityRanking flagMaxSeverity =
          some (Analyzer.Load T fs flagWhitelist flagMaxSeverity a0).1.maxSeverityRank ∧
        0 ≤ (Analyzer.Load T fs flagWhitelist flagMaxSeverity a0).1.maxSeverityRank ∧
        (Analyzer.Load T fs flagWhitelist flagMaxSeverity a0).1.maxSeverityRank ≤ 5) := by
  have hmem : flagMaxSeverity ∈ ["Unknown".toList, "Negligible".toList, "Low".toList,
      "Medium".toList, "High".toList, "Critical".toList] ↔
      ∃ rank, SeverityRanking flagMaxSeverity = some rank ∧ 0 ≤ rank ∧ rank ≤ 5 := by
    simp only [List.mem_cons, List.mem_singleton, List.not_mem_nil, or_false]
    unfold SeverityRanking
    constructor
    · rintro (h | h | h | h | h | h) <;> subst h <;> decide
    · rintro ⟨rank, h, -, -⟩
      by_contra hne
      simp only [not_or] at hne
      obtain ⟨h0, h1, h2, h3, h4, h5⟩ := hne
      rw [if_neg h0, if_neg h1, if_neg h2, if_neg h3, if_neg h4, if_neg h5] at h
      exact absurd h (by simp)
  cases hrank : SeverityRanking flagMaxSeverity with
  | none =>
    have hnot : flagMaxSeverity ∉ ["Unknown".toList, "Negligible".toList, "Low".toList,
        "Medium".toList, "High".toList, "Critical".toList] := by
      rw [hmem]; rintro ⟨rank, h, -⟩; rw [hrank] at h; exact absurd h (by simp)
    have hload : (Analyzer.Load T fs flagWhitelist flagMaxSeverity a0).2 =
        some "invalid maximum severity".toList := by
      unfold Analyzer.Load; simp only [hrank]
    refine ⟨?_, fun h => absurd h hnot, ?_⟩
    · rw [hload]; simp only [ne_eq, not_false_eq_true, true_iff, reduceCtorEq]
      exact Or.inl hnot
    · rw [hload]; intro h; exact absurd h (by simp)
  | some rank =>
    have hin : flagMaxSeverity ∈ ["Unknown".toList, "Negligible".toList, "Low".toList,
        "Medium".toList, "High".toList, "Critical".toList] := by
      by_contra hne
      have := (severityRanking_none_of_not_mem flagMaxSeverity hne)
      rw [hrank] at this; exact absurd this (by simp)
    obtain ⟨rank2, hr2, hlo, hhi⟩ := hmem.mp hin
    rw [hrank] at hr2
    have hr2 : rank2 = rank := (Option.some.inj hr2).symm
    subst hr2
    by_cases hflag : flagWhitelist = []
    · have hload : Analyzer.Load T fs flagWhitelist flagMaxSeverity a0 =
          ({ whitelist := [], maxSeverityRank := rank2 }, none) := by
        unfold Analyzer.Load; simp only [hrank, hflag, ne_eq, not_true_eq_false, if_false]
      rw [hload]
      refine ⟨?_, fun _ _ => ⟨rfl, rfl⟩, fun _ => ⟨rfl, hlo, hhi⟩⟩
      simp only [ne_eq, not_true_eq_false, false_iff, not_or, not_not]
      exact ⟨hin, fun h => absurd hflag h.1⟩
    · cases hread : fs flagWhitelist with
      | ok data =>
        have hload : Analyzer.Load T fs flagWhitelist flagMaxSeverity a0 =
            ({ whitelist := (Split data "\n".toList).foldl (loadRow T) [],
               maxSeverityRank := rank2 }, none) := by
          unfold Analyzer.Load
          simp only [hrank, hflag, ne_eq, not_false_eq_true, if_true, hread]
        rw [hload]
        refine ⟨?_, ?_, fun _ => ⟨rfl, hlo, hhi⟩⟩
        · simp only [ne_eq, not_true_eq_false, false_iff, not_or, not_not]
          refine ⟨hin, ?_⟩
          rintro ⟨-, err, h, -⟩
          exact absurd h (by simp)
        · rintro - (h | ⟨err, h, -⟩)
          · exact absurd h hflag
          · exact absurd h (by simp)
      | error err =>
        cases hne : err.isNotExist with
        | true =>
          have hload : Analyzer.Load T fs flagWhitelist flagMaxSeverity a0 =
              ({ whitelist := [], maxSeverityRank := rank2 }, none) := by
            unfold Analyzer.Load
            simp only [hrank, hflag, ne_eq, not_false_eq_true, if_true, hread, hne]
          rw [hload]
          refine ⟨?_, fun _ _ => ⟨rfl, rfl⟩, fun _ => ⟨rfl, hlo, hhi⟩⟩
          simp only [ne_eq, not_true_eq_false, false_iff, not_or, not_not]
          refine ⟨hin, ?_⟩
          rintro ⟨-, err2, h, h2⟩
          have : err2 = err := by injection h with h; exact h.symm
          rw [this, hne] at h2; exact absurd h2 (by decide)
        | false =>
          have hload : Analyzer.Load T fs flagWhitelist flagMaxSeverity a0 =
              ({ whitelist := [], maxSeverityRank := rank2 },
                some ("error loading whitelist: ".toList ++ err.text)) := by
            unfold Analyzer.Load
            simp only [hrank, hflag, ne_eq, not_false_eq_true, if_true, hread, hne]
            rfl
          rw [hload]
          refine ⟨?_, ?_, fun h => absurd h (by simp)⟩
          · simp only [ne_eq, reduceCtorEq, not_false_eq_true, true_iff]
            exact Or.inr ⟨hflag, err, rfl, hne⟩
          · rintro - (h | ⟨err2, h, h2⟩)
            · exact absurd h hflag
            · have : err2 = err := by injection h with h; exact h.symm
              rw [this, hne] at h2; exact absurd h2 (by decide)

/-! ## Lemmas: Go strings -/

theorem hasPrefix_iff (s pre : Str) : HasPrefix s pre = true ↔ pre <+: s := by
  unfold HasPrefix; exact List.isPrefixOf_iff_prefix

theorem index_of_hasPrefix (sep s : Str) (h : HasPrefix s sep = true) :
    Index sep s = some 0 := by
  cases s with
  | nil =>
    have : sep = [] := by
      rw [hasPrefix_iff] at h; exact List.prefix_nil.mp h
    simp [Index, this]
  | cons c t => simp [Index, h]

theorem replace1_of_hasPrefix (s old : Str) (h : HasPrefix s old = true) :
    Replace1 s old [] = s.drop old.length := by
  unfold Replace1
  by_cases ho : old = []
  · simp [ho]
  · rw [if_neg ho, index_of_hasPrefix old s h]
    simp

theorem hasPrefix_singleton_cons (c a : Char) (s : Str) :
    HasPrefix (a :: s) [c] = decide (c = a) := by
  simp [HasPrefix, List.isPrefixOf]
  rfl

theorem index_singleton_none (c : Char) (s : Str) (h : c ∉ s) : Index [c] s = none := by
  induction s with
  | nil => simp [Index]
  | cons a t ih =>
    have hne : c ≠ a := fun e => h (e ▸ List.mem_cons_self _ _)
    have ht : c ∉ t := fun e => h (List.mem_cons_of_mem _ e)
    simp [Index, hasPrefix_singleton_cons, hne, ih ht]

theorem index_singleton_append (c : Char) (x y : Str) (h : c ∉ x) :
    Index [c] (x ++ c :: y) = some x.length := by
  induction x with
  | nil => simp [Index, hasPrefix_singleton_cons]
  | cons a t ih =>
    have hne : c ≠ a := fun e => h (e ▸ List.mem_cons_self _ _)
    have ht : c ∉ t := fun e => h (List.mem_cons_of_mem _ e)
    simp [Index, hasPrefix_singleton_cons, hne, ih ht]

theorem splitN_two_of_not_mem (c : Char) (s : Str) (h : c ∉ s) : SplitN s [c] 2 = [s] := by
  unfold SplitN
  cases s with
  | nil => simp [genSplitLoop]
  | cons a t =>
    have : min 2 ((a :: t).length + 1) - 1 = 1 := by simp
    rw [if_neg (by decide), this]
    simp [genSplitLoop, index_singleton_none c _ h]

theorem splitN_two_append (c : Char) (x y : Str) (h : c ∉ x) :
    SplitN (x ++ c :: y) [c] 2 = [x, y] := by
  unfold SplitN
  have : min 2 ((x ++ c :: y).length + 1) - 1 = 1 := by simp; omega
  rw [if_neg (by decide), this]
  simp [genSplitLoop, index_singleton_append c x y h]

theorem dropWhile_rdropWhile_comm (p : Char → Bool) (s : Str) :
    (s.rdropWhile p).dropWhile p = (s.dropWhile p).rdropWhile p := by
  induction s using List.reverseRecOn with
  | nil => simp [List.rdropWhile]
  | append_singleton l x ih =>
    by_cases hx : p x = true
    · rw [List.rdropWhile_concat_pos _ _ _ hx, ih, List.dropWhile_append]
      by_cases he : (l.dropWhile p).isEmpty = true
      · rw [if_pos he]
        have : l.dropWhile p = [] := List.isEmpty_iff.mp he
        simp [this, hx, List.rdropWhile]
      · rw [if_neg he, List.rdropWhile_concat_pos _ _ _ hx]
    · rw [List.rdropWhile_concat_neg _ _ _ hx, List.dropWhile_append]
      by_cases he : (l.dropWhile p).isEmpty = true
      · rw [if_pos he]
        have h1 : [x].dropWhile p = [x] := by simp [List.dropWhile, hx]
        rw [h1]
        exact (List.rdropWhile_concat_neg p [] x hx).symm
      · rw [if_neg he, List.rdropWhile_concat_neg _ _ _ hx]

theorem mem_slash_cutset :
    (fun c : Char => decide (c ∈ "/".toList)) = (fun c => decide (c = '/')) := by
  funext c
  have : "/".toList = ['/'] := rfl
  simp [this]

theorem trimRight_slash_eq (s : Str) :
    TrimRight s "/".toList = s.rdropWhile (fun c => decide (c = '/')) := by
  unfold TrimRight; rw [mem_slash_cutset]; rfl

theorem trim_slash_eq (s : Str) : Trim s "/".toList = specTrimSlashes s := by
  unfold Trim TrimLeft specTrimSlashes
  rw [trimRight_slash_eq, mem_slash_cutset, dropWhile_rdropWhile_comm]
  rfl

/-! ## Image references: the parser against its specification -/

/-- The parser computes the normalized path of the specification and then cuts it. -/
theorem parse_eq_split (T : CaseTables) (imagePath registryDomain : Str) :
    ParseImageIdentifiers T imagePath registryDomain =
      match SplitN (specNormalizedPath T imagePath registryDomain) ":".toList 2 with
      | [part0] => .ok { Repository := specTrimSlashes part0, Tag := "latest".toList }
      | [part0, part1] => .ok { Repository := specTrimSlashes part0, Tag := part1 }
      | _ => .error "invalid docker image path".toList := by
  have hdom : TrimRight (stripProtocol (ToLower T registryDomain)) "/".toList =
      specNormalizedDomain T registryDomain := by
    rw [trimRight_slash_eq]; rfl
  have hpath : (if HasPrefix (collapseSlashes (stripProtocol (ToLower T imagePath)))
        (specNormalizedDomain T registryDomain) = true then
        Replace1 (collapseSlashes (stripProtocol (ToLower T imagePath)))
          (specNormalizedDomain T registryDomain) []
      else collapseSlashes (stripProtocol (ToLower T imagePath))) =
      specNormalizedPath T imagePath registryDomain := by
    unfold specNormalizedPath
    by_cases h : HasPrefix (collapseSlashes (stripProtocol (ToLower T imagePath)))
        (specNormalizedDomain T registryDomain) = true
    · rw [if_pos h, replace1_of_hasPrefix _ _ h]
      unfold HasPrefix at h
      simp only [h, if_true]
    · rw [if_neg h]
      unfold HasPrefix at h
      simp only [h]
      rfl
  unfold ParseImageIdentifiers
  simp only [hdom, hpath, trim_slash_eq]

/-- The function `ParseImageIdentifiers` has no failing input: the cut gives one or two parts. -/
theorem parse_total (T : CaseTables) (imagePath registryDomain : Str) :
    (':' ∉ specNormalizedPath T imagePath registryDomain →
      ParseImageIdentifiers T imagePath registryDomain =
        .ok { Repository := specTrimSlashes (specNormalizedPath T imagePath registryDomain),
              Tag := "latest".toList }) ∧
    (':' ∈ specNormalizedPath T imagePath registryDomain →
      ParseImageIdentifiers T imagePath registryDomain =
        .ok { Repository := specTrimSlashes
                ((specNormalizedPath T imagePath registryDomain).takeWhile (· ≠ ':')),
              Tag := ((specNormalizedPath T imagePath registryDomain).dropWhile
                (· ≠ ':')).drop 1 }) := by
  have hc : ":".toList = [':'] := rfl
  constructor
  · intro h
    rw [parse_eq_split, hc, splitN_two_of_not_mem _ _ h]
  · intro h
    have hsplit := List.takeWhile_append_dropWhile (· ≠ ':')
      (specNormalizedPath T imagePath registryDomain)
    have hnot : ':' ∉ (specNormalizedPath T imagePath registryDomain).takeWhile (· ≠ ':') := by
      intro hm
      have := List.mem_takeWhile_imp hm
      simp at this
    cases hd : (specNormalizedPath T imagePath registryDomain).dropWhile (· ≠ ':') with
    | nil =>
      rw [List.dropWhile_eq_nil_iff] at hd
      have := hd _ h
      simp at this
    | cons a rest =>
      have ha : a = ':' := by
        have := List.head_dropWhile_not (· ≠ ':')
          (specNormalizedPath T imagePath registryDomain) (by rw [hd]; simp)
        simp only [hd, List.head_cons] at this
        simpa using this
      subst ha
      rw [hd] at hsplit
      rw [parse_eq_split, hc]
      conv_lhs => rw [← hsplit]
      rw [splitN_two_append _ _ _ hnot]
      simp

/-- C5: `ParseImageIdentifiers` cuts at the first `:` only and defaults the tag to `latest`.
With `p` the image path after normalization (lower-cased, leading `http://` or `https://`
stripped, repeated `/` collapsed, leading normalized registry domain removed): when `p` has
no `:`, the result is `Repository` = `p` with leading and trailing `/` trimmed and
`Tag = "latest"`; otherwise `Repository` is what precedes the first `:`, trimmed of `/` at
both ends, and `Tag` is everything after that first `:`, further `:` included. So
`myorga/myimage:sha256:<hex>` has tag `sha256:<hex>` and `myorga/myimage` has tag
`latest`. -/
theorem C5_parse_splits_on_first_colon (T : CaseTables) (imagePath registryDomain : Str) :
    (':' ∉ specNormalizedPath T imagePath registryDomain →
      ParseImageIdentifiers T imagePath registryDomain =
        .ok { Repository := specTrimSlashes (specNormalizedPath T imagePath registryDomain),
              Tag := "latest".toList }) ∧
    (':' ∈ specNormalizedPath T imagePath registryDomain →
      ParseImageIdentifiers T imagePath registryDomain =
        .ok { Repository := specTrimSlashes
                ((specNormalizedPath T imagePath registryDomain).takeWhile (· ≠ ':')),
              Tag := ((specNormalizedPath T imagePath registryDomain).dropWhile
                (· ≠ ':')).drop 1 }) ∧
    ParseImageIdentifiers T
        "myorga/myimage:sha256:a3ed95caeb02ffe68cdd9fd84406680ae93d633cb16422d00e8a7c22955b46d4".toList
        "docker.mydomain.com".toList =
      .ok { Repository := "myorga/myimage".toList,
            Tag := "sha256:a3ed95caeb02ffe68cdd9fd84406680ae93d633cb16422d00e8a7c22955b46d4".toList } ∧
    ParseImageIdentifiers T "myorga/myimage".toList "docker.mydomain.com".toList =
      .ok { Repository := "myorga/myimage".toList, Tag := "latest".toList } :=
  ⟨(parse_total T imagePath registryDomain).1, (parse_total T imagePath registryDomain).2,
    rfl, rfl⟩

/-- C10, as the code has it: `ParseImageIdentifiers` returns an `ImageIdentifiers` value on
every input and never the error `invalid docker image path`; an image path that is empty
after normalization and removal of the registry domain gives the empty repository with tag
`latest`. -/
theorem C10_parse_never_fails (T : CaseTables) (imagePath registryDomain : Str) :
    (∃ ids, ParseImageIdentifiers T imagePath registryDomain = .ok ids) ∧
    (specNormalizedPath T imagePath registryDomain = [] →
      ParseImageIdentifiers T imagePath registryDomain =
        .ok { Repository := [], Tag := "latest".toList }) := by
  constructor
  · by_cases h : ':' ∈ specNormalizedPath T imagePath registryDomain
    · exact ⟨_, (parse_total T imagePath registryDomain).2 h⟩
    · exact ⟨_, (parse_total T imagePath registryDomain).1 h⟩
  · intro h
    have := (parse_total T imagePath registryDomain).1 (by rw [h]; simp)
    rw [this, h]
    rfl

/-- C10, refuted as stated: the empty image path, and an image path equal to the registry
domain, are both empty after normalization and removal of the registry domain, and both
are accepted, with the empty repository and tag `latest`, instead of being rejected. -/
theorem C10_empty_path_accepted :
    specNormalizedPath asciiOnly [] "docker.mydomain.com".toList = [] ∧
    ParseImageIdentifiers asciiOnly [] "docker.mydomain.com".toList =
      .ok { Repository := [], Tag := "latest".toList } ∧
    specNormalizedPath asciiOnly "docker.mydomain.com".toList "docker.mydomain.com".toList = [] ∧
    ParseImageIdentifiers asciiOnly "docker.mydomain.com".toList "docker.mydomain.com".toList =
      .ok { Repository := [], Tag := "latest".toList } ∧
    ¬ ∃ e, ParseImageIdentifiers asciiOnly [] "docker.mydomain.com".toList = .error e := by
  refine ⟨by decide, rfl, by decide, rfl, ?_⟩
  rintro ⟨e, h⟩
  have h2 : ParseImageIdentifiers asciiOnly [] "docker.mydomain.com".toList =
      .ok { Repository := [], Tag := "latest".toList } := rfl
  rw [h2] at h
  exact absurd h (by simp)

/-! ## Image references: normal forms -/

theorem toLower_append (T : CaseTables) (a b : Str) :
    ToLower T (a ++ b) = ToLower T a ++ ToLower T b := by
  simp [ToLower]

theorem toLower_slashes (T : CaseTables) (k : Nat) :
    ToLower T (List.replicate k '/') = List.replicate k '/' := by
  have h : unicodeToLower T '/' = '/' := rfl
  simp [ToLower, List.map_replicate, h]

theorem toLower_scheme (T : CaseTables) (s : Str)
    (hs : s ∈ ["".toList, "http://".toList, "https://".toList]) : ToLower T s = s := by
  simp only [List.mem_cons, List.mem_singleton, List.not_mem_nil, or_false] at hs
  rcases hs with h | h | h <;> subst h <;> rfl

/-- Two strings that agree up to their first slash: if `a/b` starts `d/rest` and neither `a`
nor `d` has a slash, then `a = d`. -/
theorem eq_of_slash_prefix (a b : Str) :
    ∀ d rest : Str, '/' ∉ a → '/' ∉ d → (a ++ '/' :: b) <+: (d ++ '/' :: rest) → a = d := by
  induction a with
  | nil =>
    intro d rest _ hd h
    cases d with
    | nil => rfl
    | cons c d =>
      have : '/' = c := by
        simp only [List.nil_append, List.cons_append] at h
        exact (List.cons_prefix_cons.mp h).1
      exact absurd (this ▸ List.mem_cons_self _ _) hd
  | cons x a ih =>
    intro d rest ha hd h
    cases d with
    | nil =>
      simp only [List.nil_append, List.cons_append] at h
      have : x = '/' := (List.cons_prefix_cons.mp h).1
      exact absurd (this ▸ List.mem_cons_self _ _) ha
    | cons c d =>
      simp only [List.cons_append] at h
      obtain ⟨hxc, htl⟩ := List.cons_prefix_cons.mp h
      have := ih d rest (fun e => ha (List.mem_cons_of_mem _ e))
        (fun e => hd (List.mem_cons_of_mem _ e)) htl
      rw [hxc, this]

/-- A domain without a slash that does not start with `a` cannot make `a/b` a leading part
of the domain followed by nothing or by a slash. -/
theorem not_hasPrefix_of_domain (a b d rest : Str) (ha : '/' ∉ a) (hd : '/' ∉ d)
    (hda : HasPrefix d a = false) (hrest : rest = [] ∨ ∃ rest2, rest = '/' :: rest2) :
    HasPrefix (d ++ rest) (a ++ '/' :: b) = false := by
  rw [Bool.eq_false_iff]
  intro h
  rw [hasPrefix_iff] at h
  rcases hrest with hr | ⟨rest2, hr⟩
  · subst hr
    rw [List.append_nil] at h
    have : '/' ∈ d := h.subset (by simp)
    exact hd this
  · subst hr
    have := eq_of_slash_prefix a b d rest2 ha hd h
    subst this
    have : HasPrefix a a = true := by
      rw [hasPrefix_iff]
    rw [this] at hda
    exact absurd hda (by decide)

theorem stripProtocol_scheme_append (s d rest : Str)
    (hs : s ∈ ["".toList, "http://".toList, "https://".toList]) (hd : '/' ∉ d)
    (h1 : HasPrefix d "http:".toList = false) (h2 : HasPrefix d "https:".toList = false)
    (hrest : rest = [] ∨ ∃ rest2, rest = '/' :: rest2) :
    stripProtocol (s ++ d ++ rest) = d ++ rest := by
  simp only [List.mem_cons, List.mem_singleton, List.not_mem_nil, or_false] at hs
  rcases hs with h | h | h <;> subst h
  · have e1 := not_hasPrefix_of_domain "http:".toList "/".toList d rest (by decide) hd h1 hrest
    have e2 := not_hasPrefix_of_domain "https:".toList "/".toList d rest (by decide) hd h2 hrest
    have a1 : "http:".toList ++ '/' :: "/".toList = "http://".toList := rfl
    have a2 : "https:".toList ++ '/' :: "/".toList = "https://".toList := rfl
    rw [a1] at e1
    rw [a2] at e2
    have a3 : "".toList ++ d ++ rest = d ++ rest := rfl
    unfold stripProtocol
    rw [a3, e1, e2]
    rfl
  · have a3 : "http://".toList ++ d ++ rest = "http://".toList ++ (d ++ rest) := by
      rw [List.append_assoc]
    unfold stripProtocol
    have e1 : HasPrefix ("http://".toList ++ (d ++ rest)) "http://".toList = true := by
      rw [hasPrefix_iff]; exact List.prefix_append _ _
    rw [a3, e1]
    rfl
  · have a3 : "https://".toList ++ d ++ rest = "https://".toList ++ (d ++ rest) := by
      rw [List.append_assoc]
    unfold stripProtocol
    have e1 : HasPrefix ("https://".toList ++ (d ++ rest)) "http://".toList = false := rfl
    have e2 : HasPrefix ("https://".toList ++ (d ++ rest)) "https://".toList = true := by
      rw [hasPrefix_iff]; exact List.prefix_append _ _
    rw [a3, e1, e2]
    rfl

theorem rdropWhile_slashes (d : Str) (hd : '/' ∉ d) (m : Nat) :
    (d ++ List.replicate m '/').rdropWhile (fun c => decide (c = '/')) = d := by
  induction m with
  | zero =>
    rw [List.replicate_zero, List.append_nil, List.rdropWhile_eq_self_iff]
    intro hl hp
    have : d.getLast hl = '/' := by simpa using hp
    exact hd (this ▸ List.getLast_mem hl)
  | succ m ih =>
    rw [List.replicate_succ', ← List.append_assoc, List.rdropWhile_concat_pos _ _ _ (by simp)]
    exact ih

theorem collapse_cons_of_ne (c : Char) (y : Str) (hc : c ≠ '/') :
    collapseSlashes (c :: y) = c :: collapseSlashes y := by
  cases y with
  | nil => rfl
  | cons d rest => simp [collapseSlashes, hc]

theorem collapse_append_of_not_mem (d x : Str) (hd : '/' ∉ d) :
    collapseSlashes (d ++ x) = d ++ collapseSlashes x := by
  induction d with
  | nil => rfl
  | cons c d ih =>
    have hc : c ≠ '/' := fun e => hd (e ▸ List.mem_cons_self _ _)
    rw [List.cons_append, collapse_cons_of_ne _ _ hc,
      ih (fun e => hd (List.mem_cons_of_mem _ e))]
    rfl

theorem collapse_slashes_cons (k : Nat) (c : Char) (y : Str) (hc : c ≠ '/') :
    collapseSlashes (List.replicate (k + 1) '/' ++ c :: y) = '/' :: c :: collapseSlashes y := by
  induction k with
  | zero =>
    have : List.replicate (0 + 1) '/' ++ c :: y = '/' :: c :: y := rfl
    rw [this]
    have e : collapseSlashes ('/' :: c :: y) = '/' :: collapseSlashes (c :: y) := by
      simp [collapseSlashes, hc]
    rw [e, collapse_cons_of_ne _ _ hc]
  | succ k ih =>
    have : List.replicate (k + 1 + 1) '/' ++ c :: y =
        '/' :: '/' :: (List.replicate k '/' ++ c :: y) := rfl
    rw [this]
    have e : collapseSlashes ('/' :: '/' :: (List.replicate k '/' ++ c :: y)) =
        collapseSlashes ('/' :: (List.replicate k '/' ++ c :: y)) := by
      simp [collapseSlashes]
    rw [e]
    exact ih

theorem collapse_of_no_double (s : Str) (h : ¬ "//".toList <:+: s) : collapseSlashes s = s := by
  induction s with
  | nil => rfl
  | cons c s ih =>
    have hs : ¬ "//".toList <:+: s := fun e => h (e.trans (List.infix_cons (List.infix_refl _)))
    cases s with
    | nil => rfl
    | cons d rest =>
      have hne : ¬ (c = '/' ∧ d = '/') := by
        rintro ⟨rfl, rfl⟩
        apply h
        exact ⟨[], rest, rfl⟩
      simp only [collapseSlashes, hne, if_false]
      rw [ih hs]

theorem collapse_append_colon (x y : Str) (hx : ¬ "//".toList <:+: x)
    (hy : ¬ "//".toList <:+: y) :
    collapseSlashes (x ++ ':' :: y) = x ++ ':' :: y := by
  induction x with
  | nil =>
    rw [List.nil_append, collapse_cons_of_ne _ _ (by decide), collapse_of_no_double y hy]
  | cons c x ih =>
    have hxs : ¬ "//".toList <:+: x :=
      fun e => hx (e.trans (List.infix_cons (List.infix_refl _)))
    cases x with
    | nil =>
      have : [c] ++ ':' :: y = c :: ':' :: y := rfl
      rw [this]
      have hne : ¬ (c = '/' ∧ ':' = '/') := fun h => absurd h.2 (by decide)
      simp only [collapseSlashes, hne, if_false]
      rw [collapse_cons_of_ne _ _ (by decide), collapse_of_no_double y hy]
    | cons d rest =>
      have hne : ¬ (c = '/' ∧ d = '/') := by
        rintro ⟨rfl, rfl⟩
        apply hx
        exact ⟨[], rest, rfl⟩
      have : c :: d :: rest ++ ':' :: y = c :: d :: (rest ++ ':' :: y) := rfl
      rw [this]
      simp only [collapseSlashes, hne, if_false]
      have ih2 := ih hxs
      rw [List.cons_append] at ih2
      rw [ih2]

/-- C4: `ParseImageIdentifiers` does not depend on the scheme, the letter case, repeated
slashes or the registry-domain part. For a registry domain `d` (non-empty, lower-case, no
`/`, not starting with `http:` or `https:`), a repository `r` (non-empty, lower-case, no
`:`, no `//`, neither starting nor ending with `/`), a tag `t` (lower-case, no `//`),
schemes `s1`, `s2` among the empty string, `http://` and `https://`, a spelling `D` with
`ToLower(D) = d`, `k ≥ 1` and `m ≥ 0`: parsing `s1 + D + k slashes + r + ":" + t` against
the registry `s2 + d + m slashes` succeeds with `Repository = r` and `Tag = t`. -/
theorem C4_parse_insensitive (T : CaseTables) (d r t s1 s2 D : Str) (k m : Nat)
    (_hd_ne : d ≠ []) (hd_lower : ToLower T d = d) (hd_slash : '/' ∉ d)
    (hd_http : HasPrefix d "http:".toList = false)
    (hd_https : HasPrefix d "https:".toList = false)
    (hr_ne : r ≠ []) (hr_lower : ToLower T r = r) (hr_colon : ':' ∉ r)
    (hr_double : ¬ "//".toList <:+: r)
    (hr_head : r.head? ≠ some '/') (hr_last : r.getLast? ≠ some '/')
    (ht_lower : ToLower T t = t) (ht_double : ¬ "//".toList <:+: t)
    (hs1 : s1 ∈ ["".toList, "http://".toList, "https://".toList])
    (hs2 : s2 ∈ ["".toList, "http://".toList, "https://".toList])
    (hD : ToLower T D = d) (hk : 1 ≤ k) :
    ParseImageIdentifiers T (s1 ++ D ++ List.replicate k '/' ++ r ++ ":".toList ++ t)
        (s2 ++ d ++ List.replicate m '/') =
      .ok { Repository := r, Tag := t } := by
  obtain ⟨k, rfl⟩ : ∃ j, k = j + 1 := ⟨k - 1, by omega⟩
  obtain ⟨c, r2, rfl⟩ : ∃ c r2, r = c :: r2 := by
    cases r with
    | nil => exact absurd rfl hr_ne
    | cons c r2 => exact ⟨c, r2, rfl⟩
  have hc : c ≠ '/' := by
    intro e; apply hr_head; rw [e]; rfl
  have hcolon : ":".toList = [':'] := rfl
  -- the registry domain, normalized
  have hdom : specNormalizedDomain T (s2 ++ d ++ List.replicate m '/') = d := by
    unfold specNormalizedDomain
    rw [toLower_append, toLower_append, toLower_scheme T s2 hs2, hd_lower, toLower_slashes,
      stripProtocol_scheme_append s2 d _ hs2 hd_slash hd_http hd_https]
    · exact rdropWhile_slashes d hd_slash m
    · cases m with
      | zero => exact Or.inl rfl
      | succ m => exact Or.inr ⟨List.replicate m '/', rfl⟩
  -- the image path, normalized
  have hlow : ToLower T (s1 ++ D ++ List.replicate (k + 1) '/' ++ (c :: r2) ++ ":".toList ++ t)
      = s1 ++ d ++ (List.replicate (k + 1) '/' ++ c :: (r2 ++ ':' :: t)) := by
    have ec : ToLower T ":".toList = ":".toList := rfl
    rw [toLower_append, toLower_append, toLower_append, toLower_append, toLower_append,
      toLower_scheme T s1 hs1, hD, toLower_slashes, hr_lower, ht_lower, ec, hcolon]
    simp
  have hstrip : stripProtocol
      (s1 ++ d ++ (List.replicate (k + 1) '/' ++ c :: (r2 ++ ':' :: t))) =
      d ++ (List.replicate (k + 1) '/' ++ c :: (r2 ++ ':' :: t)) :=
    stripProtocol_scheme_append s1 d _ hs1 hd_slash hd_http hd_https
      (Or.inr ⟨List.replicate k '/' ++ c :: (r2 ++ ':' :: t), rfl⟩)
  have hr2 : ¬ "//".toList <:+: r2 :=
    fun e => hr_double (e.trans (List.infix_cons (List.infix_refl _)))
  have hcollapse : collapseSlashes
      (d ++ (List.replicate (k + 1) '/' ++ c :: (r2 ++ ':' :: t))) =
      d ++ '/' :: c :: (r2 ++ ':' :: t) := by
    rw [collapse_append_of_not_mem _ _ hd_slash, collapse_slashes_cons _ _ _ hc,
      collapse_append_colon r2 t hr2 ht_double]
  have hpath : specNormalizedPath T
      (s1 ++ D ++ List.replicate (k + 1) '/' ++ (c :: r2) ++ ":".toList ++ t)
      (s2 ++ d ++ List.replicate m '/') = ('/' :: c :: r2) ++ ':' :: t := by
    unfold specNormalizedPath
    simp only [hlow, hstrip, hcollapse, hdom]
    have : d.isPrefixOf (d ++ '/' :: c :: (r2 ++ ':' :: t)) = true := by
      rw [List.isPrefixOf_iff_prefix]; exact List.prefix_append _ _
    rw [if_pos this, List.drop_left]
    rfl
  have hnot : ':' ∉ '/' :: c :: r2 := by
    intro h
    rcases List.mem_cons.mp h with h | h
    · exact absurd h (by decide)
    · exact hr_colon h
  rw [parse_eq_split, hpath, hcolon, splitN_two_append _ _ _ hnot]
  -- trimming the slashes off the repository part
  have htrim : specTrimSlashes ('/' :: c :: r2) = c :: r2 := by
    unfold specTrimSlashes
    have e1 : ('/' :: c :: r2).dropWhile (· = '/') = c :: r2 := by
      simp [List.dropWhile, hc]
    rw [e1]
    change (c :: r2).rdropWhile (fun x => decide (x = '/')) = c :: r2
    rw [List.rdropWhile_eq_self_iff]
    intro hl hp
    apply hr_last
    rw [List.getLast?_eq_getLast _ hl]
    have : (c :: r2).getLast hl = '/' := by simpa using hp
    rw [this]
  simp only [htrim]

/-! ## The index request -/

theorem foldl_indexLayerStep (ids : ImageIdentifiers) (registry token : Str)
    (layers : List Descriptor) :
    ∀ acc : List Layer,
      layers.foldl (indexLayerStep ids registry token) acc =
        acc ++ layers.map (fun l => (indexLayerStep ids registry token [] l).headD
          { Hash := [], Uri := [], Headers := [] }) := by
  induction layers with
  | nil => intro acc; simp
  | cons l ls ih =>
    intro acc
    rw [List.foldl_cons, ih]
    simp [indexLayerStep]

/-- C7: the index request that `IndexManifest` builds and posts has `Hash` = the config
digest of the manifest and exactly one layer per manifest layer, in manifest order; layer
`i` has `Hash` = the digest of the manifest layer, `Uri` = the first URL of the manifest
layer when it carries one and otherwise `registry + "/v2/" + repository + "/blobs/" +
digest`, and `Headers` = the mapping with the one entry `Authorization: [authToken]` when
the token is non-empty and the empty mapping when it is empty. -/
theorem C7_index_request (post : Str → IndexJSONRequestBody → ClairAnswer)
    (flagClairUrl : Str) (manifest : DeserializedManifest) (ids : ImageIdentifiers)
    (registry token : Str) :
    IndexManifest post flagClairUrl manifest ids registry token =
        indexAnswer "can't index manifest in clair".toList
          "can't decode clair index manifest response body".toList
          (post (flagClairUrl ++ "/indexer/api/v1/index_report".toList)
            (indexRequestBody manifest ids registry token)) ∧
    (indexRequestBody manifest ids registry token).Hash = manifest.Config.Digest ∧
    (indexRequestBody manifest ids registry token).Layers.length = manifest.Layers.length ∧
    List.Forall₂
      (fun (l : Descriptor) (req : Layer) =>
        req.Hash = l.Digest ∧
        (∀ u rest, l.URLs = u :: rest → req.Uri = u) ∧
        (l.URLs = [] →
          req.Uri = registry ++ "/v2/".toList ++ ids.Repository ++ "/blobs/".toList ++ l.Digest) ∧
        (token ≠ [] → req.Headers = [("Authorization".toList, [token])]) ∧
        (token = [] → req.Headers = []))
      manifest.Layers (indexRequestBody manifest ids registry token).Layers := by
  have hlayers : (indexRequestBody manifest ids registry token).Layers =
      manifest.Layers.map (fun l => (indexLayerStep ids registry token [] l).headD
          { Hash := [], Uri := [], Headers := [] }) := by
    unfold indexRequestBody
    simp only [foldl_indexLayerStep, List.nil_append]
  refine ⟨rfl, rfl, by rw [hlayers, List.length_map], ?_⟩
  rw [hlayers, List.forall₂_map_right_iff, List.forall₂_same]
  intro l _
  refine ⟨rfl, ?_, ?_, ?_, ?_⟩
  · intro u rest h
    simp [indexLayerStep, h]
  · intro h
    simp [indexLayerStep, h]
  · intro h
    simp [indexLayerStep, h, mapSet]
  · intro h
    simp [indexLayerStep, h]

/-! ## The index wait -/

theorem afterWait_outcome (s : Str) (n : Nat) :
    ((afterWait s n n).outcome = .retrieveReport ↔ s = IndexStatusFinished) ∧
    (s ≠ IndexStatusFinished →
      (afterWait s n n).outcome =
        .exit1 ("Error indexing manifest in clair - index status is ".toList ++ s ++
          "\n".toList)) ∧
    (afterWait s n n).indexStatus = s ∧ (afterWait s n n).polls = n ∧
    (afterWait s n n).sleeps = n := by
  unfold afterWait
  by_cases h : s = IndexStatusFinished
  · simp [h]
  · simp [h]

/-- Every finished wait stopped at a test of the loop condition at which the time was up or
the status was `IndexFinished`, and is the run that `afterWait` describes. -/
theorem waitLoop_sound (clock : Nat → Int) (polled : Nat → Str) (timeout : Int) (s0 : Str) :
    ∀ (fuel i : Nat) (run : WaitRun),
      waitLoop clock (fun j => .ok (polled j)) timeout fuel i (observedStatus s0 polled i) =
        some run →
      ∃ n, i ≤ n ∧ run = afterWait (observedStatus s0 polled n) n n ∧
        (timeout ≤ clock n ∨ observedStatus s0 polled n = IndexStatusFinished) := by
  intro fuel
  induction fuel with
  | zero => intro i run h; simp [waitLoop] at h
  | succ fuel ih =>
    intro i run h
    unfold waitLoop at h
    by_cases hc : clock i < timeout
    · rw [if_pos hc] at h
      by_cases hs : observedStatus s0 polled i = IndexStatusFinished
      · rw [if_pos hs] at h
        exact ⟨i, le_refl _, (Option.some.inj h).symm, Or.inr hs⟩
      · rw [if_neg hs] at h
        obtain ⟨n, hn, hrun, hstop⟩ := ih (i + 1) run h
        exact ⟨n, by omega, hrun, hstop⟩
    · rw [if_neg hc] at h
      exact ⟨i, le_refl _, (Option.some.inj h).symm, Or.inl (not_lt.mp hc)⟩

/-- A wait that, from the `i`-th test on, first meets at the `n`-th test a clock reading at
or beyond the timeout or the status `IndexFinished`, finishes there, given `n - i + 1`
tests of the loop condition or more. -/
theorem waitLoop_complete (clock : Nat → Int) (polled : Nat → Str) (timeout : Int) (s0 : Str) :
    ∀ (k i fuel : Nat),
      (∀ j, i ≤ j → j < i + k →
        clock j < timeout ∧ observedStatus s0 polled j ≠ IndexStatusFinished) →
      (timeout ≤ clock (i + k) ∨ observedStatus s0 polled (i + k) = IndexStatusFinished) →
      k < fuel →
      waitLoop clock (fun j => .ok (polled j)) timeout fuel i (observedStatus s0 polled i) =
        some (afterWait (observedStatus s0 polled (i + k)) (i + k) (i + k)) := by
  intro k
  induction k with
  | zero =>
    intro i fuel _ hstop hfuel
    obtain ⟨f, rfl⟩ : ∃ f, fuel = f + 1 := ⟨fuel - 1, by omega⟩
    unfold waitLoop
    simp only [Nat.add_zero] at hstop ⊢
    by_cases hc : clock i < timeout
    · rw [if_pos hc]
      rcases hstop with h | h
      · exact absurd hc (not_lt.mpr h)
      · rw [if_pos h]
    · rw [if_neg hc]
  | succ k ih =>
    intro i fuel hbefore hstop hfuel
    obtain ⟨f, rfl⟩ : ∃ f, fuel = f + 1 := ⟨fuel - 1, by omega⟩
    obtain ⟨hc, hs⟩ := hbefore i (le_refl _) (by omega)
    unfold waitLoop
    rw [if_pos hc, if_neg hs]
    have e : i + (k + 1) = i + 1 + k := by omega
    rw [e] at hstop ⊢
    exact ih (i + 1) f (fun j h1 h2 => hbefore j (by omega) (by omega)) hstop (by omega)

/-- C8: the index wait of `main`, for every status `s0` returned by `IndexManifest`, every
timeout, every sequence of clock readings and every sequence of successful polls.
(1) A finished wait goes on to the retrieval of the vulnerability report exactly when its
last status is `IndexFinished`; otherwise it exits with code 1 and a message carrying that
status. (2) When `s0` is `IndexFinished`, the wait ends at once, without any poll or sleep,
and goes on to the report. (3) When the clock first reaches the timeout at its `n`-th
reading and no status observed up to then is `IndexFinished`, the wait ends after `n` polls
with exit code 1 and a message carrying the last observed status, and no report is
retrieved. (4) The wait does end as soon as some clock reading reaches the timeout or some
observed status is `IndexFinished`. -/
theorem C8_index_wait (flagIndexTimeout : Int) (clock : Nat → Int) (polled : Nat → Str)
    (s0 : Str) :
    (∀ fuel run,
      indexWait flagIndexTimeout clock (fun j => .ok (polled j)) fuel s0 = some run →
      (run.outcome = .retrieveReport ↔ run.indexStatus = IndexStatusFinished) ∧
      (run.indexStatus ≠ IndexStatusFinished →
        run.outcome = .exit1 ("Error indexing manifest in clair - index status is ".toList ++
          run.indexStatus ++ "\n".toList)) ∧
      run.indexStatus = observedStatus s0 polled run.polls ∧ run.sleeps = run.polls) ∧
    (s0 = IndexStatusFinished →
      ∀ fuel, 0 < fuel →
        indexWait flagIndexTimeout clock (fun j => .ok (polled j)) fuel s0 =
          some { outcome := .retrieveReport, indexStatus := s0, polls := 0, sleeps := 0 }) ∧
    (∀ n, (∀ j, j < n → clock j < timeoutIndex flagIndexTimeout) →
      timeoutIndex flagIndexTimeout ≤ clock n →
      (∀ j, j ≤ n → observedStatus s0 polled j ≠ IndexStatusFinished) →
      ∀ fuel, n < fuel →
        indexWait flagIndexTimeout clock (fun j => .ok (polled j)) fuel s0 =
          some { outcome := .exit1
                   ("Error indexing manifest in clair - index status is ".toList ++
                     observedStatus s0 polled n ++ "\n".toList),
                 indexStatus := observedStatus s0 polled n, polls := n, sleeps := n }) ∧
    (∀ n, (timeoutIndex flagIndexTimeout ≤ clock n ∨
        observedStatus s0 polled n = IndexStatusFinished) →
      ∃ run, ∀ fuel, n < fuel →
        indexWait flagIndexTimeout clock (fun j => .ok (polled j)) fuel s0 = some run) := by
  refine ⟨?_, ?_, ?_, ?_⟩
  · intro fuel run h
    obtain ⟨n, -, hrun, -⟩ :=
      waitLoop_sound clock polled (timeoutIndex flagIndexTimeout) s0 fuel 0 run h
    obtain ⟨h1, h2, h3, h4, h5⟩ := afterWait_outcome (observedStatus s0 polled n) n
    rw [hrun, h3, h4, h5]
    exact ⟨h1, h2, rfl, rfl⟩
  · intro hs fuel hfuel
    have := waitLoop_complete clock polled (timeoutIndex flagIndexTimeout) s0 0 0 fuel
      (fun j h1 h2 => absurd h2 (by omega)) (Or.inr hs) hfuel
    unfold indexWait
    rw [show observedStatus s0 polled 0 = s0 from rfl] at this
    rw [this]
    simp [afterWait, observedStatus, hs]
  · intro n hclock hn hstatus fuel hfuel
    have := waitLoop_complete clock polled (timeoutIndex flagIndexTimeout) s0 n 0 fuel
      (fun j _ h2 => ⟨hclock j (by omega), hstatus j (by omega)⟩)
      (Or.inl (by simpa using hn)) hfuel
    unfold indexWait
    rw [show observedStatus s0 polled 0 = s0 from rfl] at this
    rw [this]
    simp [afterWait, hstatus n (le_refl _)]
  · intro n hstop
    -- the first test at which the wait can stop
    have hex : ∃ k, timeoutIndex flagIndexTimeout ≤ clock k ∨
        observedStatus s0 polled k = IndexStatusFinished := ⟨n, hstop⟩
    classical
    let k := Nat.find hex
    have hk := Nat.find_spec hex
    have hmin : ∀ j, j < k → clock j < timeoutIndex flagIndexTimeout ∧
        observedStatus s0 polled j ≠ IndexStatusFinished := by
      intro j hj
      have := Nat.find_min hex hj
      push_neg at this
      exact ⟨this.1, this.2⟩
    have hkn : k ≤ n := Nat.find_min' hex hstop
    refine ⟨afterWait (observedStatus s0 polled k) k k, ?_⟩
    intro fuel hfuel
    have := waitLoop_complete clock polled (timeoutIndex flagIndexTimeout) s0 k 0 fuel
      (fun j _ h2 => hmin j (by omega)) (by simpa using hk) (by omega)
    unfold indexWait
    rw [show observedStatus s0 polled 0 = s0 from rfl] at this
    simpa using this

/-! ## The registry authentication -/

theorem not_basic_of_bearer (s : Str) (h : HasPrefix s "BEARER".toList = true) :
    HasPrefix s "BASIC".toList = false := by
  have e1 : "BEARER".toList = ['B', 'E', 'A', 'R', 'E', 'R'] := rfl
  have e2 : "BASIC".toList = ['B', 'A', 'S', 'I', 'C'] := rfl
  rw [e1] at h
  rw [e2]
  unfold HasPrefix at h ⊢
  rcases s with _ | ⟨a, _ | ⟨b, s⟩⟩
  · simp [List.isPrefixOf] at h
  · simp [List.isPrefixOf] at h
  · simp only [List.isPrefixOf, Bool.and_eq_true, beq_iff_eq] at h
    obtain ⟨-, hb, -⟩ := h
    subst hb
    simp [List.isPrefixOf]

/-- What `GetAuthToken` does with the `WWW-Authenticate` header `h` of the answer to the
unauthenticated probe, on the runs that reach a return statement. An empty `h` gives the
empty token and no error. An `h` whose upper-casing starts with `BASIC` gives
`"Basic " + base64(username + ":" + password)` and no further request is sent. For an `h`
whose upper-casing starts with `BEARER`: on a run in which the realm request was sent and
came back with a JSON object, a field `token` that is the string `t` gives `"Bearer " + t`
and a missing or non-string `token` field is an error; the realm request is sent, once,
whenever the realm URL parses and the user name or the password is empty. Every other
non-empty `h` gives the error `unsupported auth method`. Nothing is said here about the
Bearer branch with both credentials set. -/
theorem getAuthToken_dispatch (T : CaseTables) (env : AuthEnv)
    (registryURL username password h : Str)
    (hprobe : env.probe (registryURL ++ "/v2/".toList) = .ok h) :
    (h = [] →
      GetAuthToken T env registryURL username password =
        { exchanges := [], outcome := .ok [] }) ∧
    (h ≠ [] → HasPrefix (ToUpper T h) "BASIC".toList = true →
      GetAuthToken T env registryURL username password =
        { exchanges := [],
          outcome := .ok ("Basic ".toList ++
            env.base64 (username ++ ":".toList ++ password)) }) ∧
    (h ≠ [] → HasPrefix (ToUpper T h) "BEARER".toList = true →
      (∀ req bodyJSON,
        (GetAuthToken T env registryURL username password).exchanges =
          [(req, .object bodyJSON)] →
        (∀ t, mapGet bodyJSON "token".toList = some (.string t) →
          (GetAuthToken T env registryURL username password).outcome =
            .ok ("Bearer ".toList ++ t)) ∧
        (mapGet bodyJSON "token".toList = none →
          (GetAuthToken T env registryURL username password).outcome =
            .error "missing token in auth realm response".toList) ∧
        (∀ v, mapGet bodyJSON "token".toList = some v → (∀ t, v ≠ .string t) →
          (GetAuthToken T env registryURL username password).outcome =
            .error "invalid token in auth realm response".toList)) ∧
      (∀ urlRealm, env.urlParse (realmURLString env (parseBearer h)) = .ok urlRealm →
        (username = [] ∨ password = []) →
        (GetAuthToken T env registryURL username password).exchanges =
          [({ Method := "GET".toList, URL := urlRealm, Header := none },
            env.realm { Method := "GET".toList, URL := urlRealm, Header := none })])) ∧
    (h ≠ [] → HasPrefix (ToUpper T h) "BASIC".toList = false →
      HasPrefix (ToUpper T h) "BEARER".toList = false →
      GetAuthToken T env registryURL username password =
        { exchanges := [], outcome := .error ("unsupported auth method ".toList ++ h) }) := by
  refine ⟨?_, ?_, ?_, ?_⟩
  · intro he
    unfold GetAuthToken
    simp only [hprobe, he, if_true]
  · intro hne hb
    unfold GetAuthToken
    simp only [hprobe, hne, if_false, hb, if_true]
  · intro hne hb
    have hnb := not_basic_of_bearer _ hb
    have hrun : GetAuthToken T env registryURL username password =
        (match env.urlParse (realmURLString env (parseBearer h)) with
        | .error err =>
          { exchanges := [],
            outcome := .error ("can't prepare url for docker auth request: ".toList ++ err) }
        | .ok urlRealm =>
          match realmRequest env urlRealm username password with
          | .panic msg => { exchanges := [], outcome := .panic msg }
          | .error msg => { exchanges := [], outcome := .error msg }
          | .ok req =>
            { exchanges := [(req, env.realm req)], outcome := realmToken (env.realm req) }) := by
      unfold GetAuthToken
      simp only [hprobe, hne, if_false, hnb, hb, if_true, Bool.false_eq_true]
    constructor
    · intro req bodyJSON hex
      have hout : (GetAuthToken T env registryURL username password).outcome =
          realmToken (.object bodyJSON) := by
        rw [hrun] at hex ⊢
        cases hu : env.urlParse (realmURLString env (parseBearer h)) with
        | error err => simp [hu] at hex
        | ok urlRealm =>
          simp only [hu] at hex ⊢
          cases hr : realmRequest env urlRealm username password with
          | panic msg => simp [hr] at hex
          | error msg => simp [hr] at hex
          | ok req2 =>
            simp only [hr, List.cons.injEq, Prod.mk.injEq, and_true] at hex ⊢
            rw [hex.2]
      rw [hout]
      refine ⟨?_, ?_, ?_⟩
      · intro t ht; simp only [realmToken, ht]
      · intro ht; simp only [realmToken, ht]
      · intro v hv hns
        cases v with
        | string t => exact absurd rfl (hns t)
        | number => simp only [realmToken, hv]
        | bool b => simp only [realmToken, hv]
        | null => simp only [realmToken, hv]
        | array => simp only [realmToken, hv]
        | object => simp only [realmToken, hv]
    · intro urlRealm hu hcred
      rw [hrun, hu]
      have hreq : realmRequest env urlRealm username password =
          .ok { Method := "GET".toList, URL := urlRealm, Header := none } := by
        unfold realmRequest
        have : ¬ (username ≠ [] ∧ password ≠ []) := by
          rintro ⟨h1, h2⟩
          rcases hcred with h | h
          · exact h1 h
          · exact h2 h
        simp only [this, if_false]
      simp only [hreq]
  · intro hne hb1 hb2
    unfold GetAuthToken
    simp only [hprobe, hne, if_false, hb1, hb2, Bool.false_eq_true]

/-! ## The theorems with hypotheses, at concrete inputs -/

/-- C3 at a concrete whitelist file: a comment line, a blank line and the line
`cve-2021-1234` between blanks. The hypotheses hold, and a finding named `CVE-2021-1234` is
whitelisted while findings named after the comment line or the blank line are not. -/
theorem C3_whitelist_matching_witness :
    ("whitelist.txt".toList ≠ [] ∧
      exampleFileSystem "whitelist.txt".toList = .ok exampleWhitelist ∧
      SeverityRanking "Medium".toList ≠ none) ∧
    ((Analyzer.Load asciiOnly exampleFileSystem "whitelist.txt".toList "Medium".toList
        { whitelist := [], maxSeverityRank := 0 }).2 = none ∧
      ∀ report : VulnerabilityReport,
        ∃ result,
          (Analyzer.Load asciiOnly exampleFileSystem "whitelist.txt".toList "Medium".toList
            { whitelist := [], maxSeverityRank := 0 }).1.Analyze asciiOnly report =
              .ok result ∧
          List.Forall₂
            (fun v row =>
              row.VulnerabilityName = v.Name ∧
              (row.Whitelisted = true ↔
                ∃ line ∈ Split exampleWhitelist "\n".toList,
                  Trim line " \t".toList ≠ [] ∧
                  HasPrefix (Trim line " \t".toList) "#".toList = false ∧
                  ToUpper asciiOnly (Trim line " \t".toList) = ToUpper asciiOnly v.Name))
            report result.Rows) ∧
    (Analyzer.Load asciiOnly exampleFileSystem "whitelist.txt".toList "Medium".toList
        { whitelist := [], maxSeverityRank := 0 }).1.Analyze asciiOnly
        [finding "CVE-2021-1234".toList "High".toList, finding "# accepted".toList "High".toList,
          finding [] "High".toList] =
      .ok { OK := false
            Rows := [
              { VulnerabilityName := "CVE-2021-1234".toList, Severity := "High".toList,
                ComponentNamespace := [], ComponentName := [], Version := [], FixedIn := [],
                Whitelisted := true },
              { VulnerabilityName := "# accepted".toList, Severity := "High".toList,
                ComponentNamespace := [], ComponentName := [], Version := [], FixedIn := [],
                Whitelisted := false },
              { VulnerabilityName := [], Severity := "High".toList,
                ComponentNamespace := [], ComponentName := [], Version := [], FixedIn := [],
                Whitelisted := false }]
            CountTotal := 3, CountNotOKWhitelisted := 1, CountNotOKNotWhitelisted := 2 } :=
  ⟨⟨by decide, rfl, by decide⟩,
    C3_whitelist_matching asciiOnly exampleFileSystem "whitelist.txt".toList "Medium".toList
      { whitelist := [], maxSeverityRank := 0 } exampleWhitelist (by decide) rfl (by decide),
    rfl⟩

/-- C4 at the input of the test `TestParseImageIdentifiersWithHttpsURL`:
`https://test.DOMAIN.com//myorga/myimage:v1.0.0` against `http://test.domain.com//`. -/
theorem C4_parse_insensitive_witness :
    ParseImageIdentifiers asciiOnly
        ("https://".toList ++ "test.DOMAIN.com".toList ++ List.replicate 2 '/' ++
          "myorga/myimage".toList ++ ":".toList ++ "v1.0.0".toList)
        ("http://".toList ++ "test.domain.com".toList ++ List.replicate 2 '/') =
      .ok { Repository := "myorga/myimage".toList, Tag := "v1.0.0".toList } :=
  C4_parse_insensitive asciiOnly "test.domain.com".toList "myorga/myimage".toList
    "v1.0.0".toList "https://".toList "http://".toList "test.DOMAIN.com".toList 2 2
    (by decide) (by decide) (by decide) (by decide) (by decide)
    (by decide) (by decide) (by decide) (by decide) (by decide) (by decide)
    (by decide) (by decide) (by decide) (by decide) (by decide) (by decide)

/-- The dispatch at a registry that answers the probe with a Bearer challenge and whose
realm answers with the token `abc`, without credentials: the realm request is sent, and the
call returns `Bearer abc`. -/
theorem getAuthToken_dispatch_example :
    exampleAuthEnv.probe ("https://registry.example".toList ++ "/v2/".toList) =
        .ok exampleChallenge ∧
    (GetAuthToken asciiOnly exampleAuthEnv "https://registry.example".toList [] []).exchanges =
      [({ Method := "GET".toList,
          URL := ("https://auth.example/token?service=registry&".toList ++
            "realm=https://auth.example/token&".toList),
          Header := none },
        .object [("token".toList, .string "abc".toList)])] ∧
    (GetAuthToken asciiOnly exampleAuthEnv "https://registry.example".toList [] []).outcome =
      .ok "Bearer abc".toList :=
  ⟨rfl, rfl,
    (((getAuthToken_dispatch asciiOnly exampleAuthEnv "https://registry.example".toList [] []
        exampleChallenge rfl).2.2.1
      (by decide) (by decide)).1 _ _ rfl).1 "abc".toList rfl⟩

/-! ## The Bearer branch with credentials -/

/-- The Bearer branch of `GetAuthToken`, once the probe has answered with a challenge whose
upper-casing starts with `BEARER`. -/
theorem getAuthToken_bearer (T : CaseTables) (env : AuthEnv)
    (registryURL username password h : Str)
    (hprobe : env.probe (registryURL ++ "/v2/".toList) = .ok h) (hne : h ≠ [])
    (hb : HasPrefix (ToUpper T h) "BEARER".toList = true) :
    GetAuthToken T env registryURL username password =
      (match env.urlParse (realmURLString env (parseBearer h)) with
      | .error err =>
        { exchanges := [],
          outcome := .error ("can't prepare url for docker auth request: ".toList ++ err) }
      | .ok urlRealm =>
        match realmRequest env urlRealm username password with
        | .panic msg => { exchanges := [], outcome := .panic msg }
        | .error msg => { exchanges := [], outcome := .error msg }
        | .ok req =>
          { exchanges := [(req, env.realm req)], outcome := realmToken (env.realm req) }) := by
  have hnb := not_basic_of_bearer _ hb
  unfold GetAuthToken
  simp only [hprobe, hne, if_false, hnb, hb, if_true, Bool.false_eq_true]

/-- C11, where the code departs from it. With the challenge
`Bearer realm="https://auth.example/token",service="registry"`, the user name `user` and
the password `secret`, `GetAuthToken` sends no realm request and ends in the run-time
panic `assignment to entry in nil map`: the request is built with a `nil` header map, and
the store of the `Authorization` header into it panics. The same holds in the Bearer
branch for every user name and password that are both non-empty, as soon as the realm URL
parses. When the user name or the password is empty, the realm request is sent without any
header, as the claim says. -/
theorem C11_bearer_credentials_panic :
    GetAuthToken asciiOnly exampleAuthEnv "https://registry.example".toList "user".toList
        "secret".toList =
      { exchanges := [], outcome := .panic "assignment to entry in nil map".toList } ∧
    (∀ (T : CaseTables) (env : AuthEnv) (registryURL username password h urlRealm : Str),
      env.probe (registryURL ++ "/v2/".toList) = .ok h → h ≠ [] →
      HasPrefix (ToUpper T h) "BEARER".toList = true →
      env.urlParse (realmURLString env (parseBearer h)) = .ok urlRealm →
      username ≠ [] → password ≠ [] →
      GetAuthToken T env registryURL username password =
        { exchanges := [], outcome := .panic "assignment to entry in nil map".toList }) ∧
    (∀ (T : CaseTables) (env : AuthEnv) (registryURL username password h urlRealm : Str),
      env.probe (registryURL ++ "/v2/".toList) = .ok h → h ≠ [] →
      HasPrefix (ToUpper T h) "BEARER".toList = true →
      env.urlParse (realmURLString env (parseBearer h)) = .ok urlRealm →
      (username = [] ∨ password = []) →
      GetAuthToken T env registryURL username password =
        { exchanges :=
            [({ Method := "GET".toList, URL := urlRealm, Header := none },
              env.realm { Method := "GET".toList, URL := urlRealm, Header := none })],
          outcome :=
            realmToken (env.realm { Method := "GET".toList, URL := urlRealm, Header := none }) }) := by
  refine ⟨rfl, ?_, ?_⟩
  · intro T env registryURL username password h urlRealm hprobe hne hb hu hun hpw
    rw [getAuthToken_bearer T env registryURL username password h hprobe hne hb, hu]
    have hreq : realmRequest env urlRealm username password =
        .panic "assignment to entry in nil map".toList := by
      unfold realmRequest
      simp only [hun, hpw, ne_eq, not_false_eq_true, and_self, if_true]
      rfl
    simp only [hreq]
  · intro T env registryURL username password h urlRealm hprobe hne hb hu hcred
    rw [getAuthToken_bearer T env registryURL username password h hprobe hne hb, hu]
    have hreq : realmRequest env urlRealm username password =
        .ok { Method := "GET".toList, URL := urlRealm, Header := none } := by
      unfold realmRequest
      have : ¬ (username ≠ [] ∧ password ≠ []) := by
        rintro ⟨h1, h2⟩
        rcases hcred with h | h
        · exact h1 h
        · exact h2 h
      simp only [this, if_false]
    simp only [hreq]

/-- C6, where the code departs from it. The probe is answered with the challenge
`Bearer realm="https://auth.example/token",service="registry"`, whose upper-casing starts
with `BEARER`, and the realm answers every request with the JSON object whose field `token`
is the string `abc`, which `GetAuthToken` would turn into `Bearer abc`. With the user name
`user` and the password `secret` the call does not return `Bearer abc`: it sends no realm
request and ends in the run-time panic `assignment to entry in nil map`. The same holds for
every challenge whose upper-casing starts with `BEARER` and whose realm URL parses, every
realm that answers with a string token `t`, and every non-empty user name and password: the
call panics and does not return `"Bearer " + t`. -/
theorem C6_bearer_token_not_returned :
    (exampleAuthEnv.probe ("https://registry.example".toList ++ "/v2/".toList) =
        .ok exampleChallenge ∧
      exampleChallenge ≠ [] ∧
      HasPrefix (ToUpper asciiOnly exampleChallenge) "BEARER".toList = true ∧
      (∀ req, exampleAuthEnv.realm req = .object [("token".toList, .string "abc".toList)]) ∧
      realmToken (.object [("token".toList, .string "abc".toList)]) =
        .ok "Bearer abc".toList ∧
      (GetAuthToken asciiOnly exampleAuthEnv "https://registry.example".toList "user".toList
        "secret".toList).exchanges = [] ∧
      (GetAuthToken asciiOnly exampleAuthEnv "https://registry.example".toList "user".toList
        "secret".toList).outcome = .panic "assignment to entry in nil map".toList ∧
      (GetAuthToken asciiOnly exampleAuthEnv "https://registry.example".toList "user".toList
        "secret".toList).outcome ≠ .ok "Bearer abc".toList) ∧
    (∀ (T : CaseTables) (env : AuthEnv) (registryURL username password h urlRealm t : Str)
      (bodyJSON : GoMap JSONValue),
      env.probe (registryURL ++ "/v2/".toList) = .ok h → h ≠ [] →
      HasPrefix (ToUpper T h) "BEARER".toList = true →
      env.urlParse (realmURLString env (parseBearer h)) = .ok urlRealm →
      (∀ req, env.realm req = .object bodyJSON) →
      mapGet bodyJSON "token".toList = some (.string t) →
      username ≠ [] → password ≠ [] →
      (GetAuthToken T env registryURL username password).exchanges = [] ∧
      (GetAuthToken T env registryURL username password).outcome =
        .panic "assignment to entry in nil map".toList ∧
      (GetAuthToken T env registryURL username password).outcome ≠
        .ok ("Bearer ".toList ++ t)) := by
  refine ⟨⟨rfl, by decide, by decide, fun _ => rfl, rfl, rfl, rfl, ?_⟩, ?_⟩
  · intro h
    have hp : (GetAuthToken asciiOnly exampleAuthEnv "https://registry.example".toList
        "user".toList "secret".toList).outcome =
        .panic "assignment to entry in nil map".toList := rfl
    rw [hp] at h
    exact absurd h (by simp)
  · intro T env registryURL username password h urlRealm t bodyJSON hprobe hne hb hu _ _ hun hpw
    have hreq : realmRequest env urlRealm username password =
        .panic "assignment to entry in nil map".toList := by
      unfold realmRequest
      simp only [hun, hpw, ne_eq, not_false_eq_true, and_self, if_true]
      rfl
    have hrun : GetAuthToken T env registryURL username password =
        { exchanges := [], outcome := .panic "assignment to entry in nil map".toList } := by
      rw [getAuthToken_bearer T env registryURL username password h hprobe hne hb, hu]
      simp only [hreq]
    rw [hrun]
    refine ⟨rfl, rfl, ?_⟩
    intro hcontra
    exact absurd hcontra (by simp)

/-! ## Challenge parsing -/

theorem intercalate_cons_cons (c : Char) (x y : Str) (rest : List Str) :
    List.intercalate [c] (x :: y :: rest) = x ++ c :: List.intercalate [c] (y :: rest) := by
  simp [List.intercalate, List.intersperse]

theorem intercalate_singleton (c : Char) (x : Str) : List.intercalate [c] [x] = x := by
  simp [List.intercalate, List.intersperse]

/-- Cutting a string that was joined with a one-character separator gives the pieces back,
when no piece contains the separator and the loop is allowed enough cuts. -/
theorem genSplitLoop_intercalate (c : Char) :
    ∀ (pieces : List Str) (fuel : Nat), pieces ≠ [] → (∀ p ∈ pieces, c ∉ p) →
      pieces.length ≤ fuel + 1 →
      genSplitLoop [c] fuel (List.intercalate [c] pieces) = pieces := by
  intro pieces
  induction pieces with
  | nil => intro fuel h; exact absurd rfl h
  | cons p rest ih =>
    intro fuel _ hc hlen
    have hp : c ∉ p := hc p (List.mem_cons_self _ _)
    cases rest with
    | nil =>
      rw [intercalate_singleton]
      cases fuel with
      | zero => rfl
      | succ f => simp [genSplitLoop, index_singleton_none c p hp]
    | cons q rest =>
      rw [intercalate_cons_cons]
      cases fuel with
      | zero => simp at hlen
      | succ f =>
        have hrest := ih f (by simp) (fun x hx => hc x (List.mem_cons_of_mem _ hx))
          (by simp at hlen ⊢; omega)
        have hdrop : List.drop (p.length + 1) (p ++ c :: List.intercalate [c] (q :: rest)) =
            List.intercalate [c] (q :: rest) := by
          have e : p ++ c :: List.intercalate [c] (q :: rest) =
              (p ++ [c]) ++ List.intercalate [c] (q :: rest) := by simp
          rw [e]
          exact List.drop_left' (by simp)
        simp only [genSplitLoop, index_singleton_append c p _ hp, List.length_singleton]
        rw [List.take_left, hdrop, hrest]

theorem length_le_intercalate (c : Char) :
    ∀ pieces : List Str, pieces.length ≤ (List.intercalate [c] pieces).length + 1 := by
  intro pieces
  induction pieces with
  | nil => simp
  | cons p rest ih =>
    cases rest with
    | nil => simp
    | cons q rest =>
      rw [intercalate_cons_cons]
      simp only [List.length_cons, List.length_append] at ih ⊢
      omega

theorem split_intercalate (c : Char) (pieces : List Str) (hne : pieces ≠ [])
    (hc : ∀ p ∈ pieces, c ∉ p) : Split (List.intercalate [c] pieces) [c] = pieces := by
  unfold Split
  exact genSplitLoop_intercalate c pieces _ hne hc (length_le_intercalate c pieces)

theorem not_mem_challengeParam (c : Char) (kv : Str × Str) (h1 : c ∉ kv.1) (h2 : c ∉ kv.2)
    (he : c ≠ '=') (hq : c ≠ dquote) : c ∉ challengeParam kv := by
  unfold challengeParam
  have : "=".toList = ['='] := rfl
  simp [this, h1, h2, he, hq]

theorem not_mem_intercalate (c s : Char) (pieces : List Str) (hs : c ≠ s)
    (hp : ∀ p ∈ pieces, c ∉ p) : c ∉ List.intercalate [s] pieces := by
  induction pieces with
  | nil => simp [List.intercalate]
  | cons p rest ih =>
    cases rest with
    | nil => rw [intercalate_singleton]; exact hp p (List.mem_cons_self _ _)
    | cons q rest =>
      rw [intercalate_cons_cons]
      intro hm
      rcases List.mem_append.mp hm with h | h
      · exact hp p (List.mem_cons_self _ _) h
      · rcases List.mem_cons.mp h with h | h
        · exact hs h
        · exact ih (fun x hx => hp x (List.mem_cons_of_mem _ hx)) h

theorem removeAll_of_not_mem (c : Char) (s : Str) (h : c ∉ s) : removeAll c s = s := by
  unfold removeAll
  rw [List.filter_eq_self]
  intro a ha
  simp only [ne_eq, decide_not, Bool.not_eq_eq_eq_not, Bool.not_true, decide_eq_false_iff_not]
  intro e
  exact h (e ▸ ha)

/-- What `parseBearer` stores for one well-formed parameter. -/
theorem parseBearerParam_challengeParam (out : GoMap Str) (kv : Str × Str) (hk : kv.1 ≠ [])
    (h1 : '=' ∉ kv.1) (h2 : '=' ∉ kv.2) (hq : dquote ∉ kv.2) :
    parseBearerParam out (challengeParam kv) = mapSet out kv.1 kv.2 := by
  have hparam : challengeParam kv =
      List.intercalate ['='] [kv.1, dquote :: (kv.2 ++ [dquote])] := by
    rw [intercalate_cons_cons, intercalate_singleton]
    unfold challengeParam
    have : "=".toList = ['='] := rfl
    simp [this]
  have hsplit : Split (challengeParam kv) "=".toList = [kv.1, dquote :: (kv.2 ++ [dquote])] := by
    have : "=".toList = ['='] := rfl
    rw [this, hparam]
    apply split_intercalate _ _ (by simp)
    intro p hp
    simp only [List.mem_cons, List.mem_singleton, List.not_mem_nil, or_false] at hp
    rcases hp with rfl | rfl
    · exact h1
    · have hd : '=' ≠ dquote := by decide
      simp [h2, hd]
  have hrem : removeAll dquote (dquote :: (kv.2 ++ [dquote])) = kv.2 := by
    unfold removeAll
    simp only [List.filter_cons, List.filter_append, ne_eq, not_true_eq_false, decide_False,
      List.filter_nil, List.append_nil, Bool.false_eq_true, if_false]
    exact removeAll_of_not_mem dquote kv.2 hq
  unfold parseBearerParam
  simp only [hsplit, hk, if_false, hrem]

theorem foldl_parseBearerParam (pairs : List (Str × Str)) :
    ∀ out : GoMap Str,
      (∀ kv ∈ pairs, kv.1 ≠ [] ∧ '=' ∉ kv.1 ∧ '=' ∉ kv.2 ∧ dquote ∉ kv.2) →
      (pairs.map challengeParam).foldl parseBearerParam out =
        pairs.foldl (fun m kv => mapSet m kv.1 kv.2) out := by
  induction pairs with
  | nil => intro out _; rfl
  | cons kv rest ih =>
    intro out h
    obtain ⟨hk, h1, h2, hq⟩ := h kv (List.mem_cons_self _ _)
    rw [List.map_cons, List.foldl_cons, List.foldl_cons,
      parseBearerParam_challengeParam out kv hk h1 h2 hq]
    exact ih _ (fun x hx => h x (List.mem_cons_of_mem _ hx))

/-- Reading a map that was filled from a list of pairs with distinct keys. -/
theorem mapGet_foldl_mapSet (pairs : List (Str × Str)) :
    ∀ (out : GoMap Str) (k : Str), (pairs.map Prod.fst).Nodup →
      mapGet (pairs.foldl (fun m kv => mapSet m kv.1 kv.2) out) k =
        match pairs.lookup k with
        | some v => some v
        | none => mapGet out k := by
  induction pairs with
  | nil => intro out k _; rfl
  | cons kv rest ih =>
    intro out k hnd
    rw [List.map_cons, List.nodup_cons] at hnd
    rw [List.foldl_cons, ih _ k hnd.2, mapGet_mapSet, List.lookup_cons]
    by_cases hk : k = kv.1
    · subst hk
      have hnone : rest.lookup kv.1 = none := by
        rw [List.lookup_eq_none_iff]
        intro p hp
        have : p.1 ≠ kv.1 := fun e => hnd.1 (e ▸ List.mem_map_of_mem Prod.fst hp)
        simpa using fun e => this e.symm
      simp [hnone]
    · have hne : (k == kv.1) = false := by simpa using hk
      simp only [hne, if_neg hk]

/-- Filling a map from a list of pairs with distinct keys stores the pairs, last first. -/
theorem foldl_mapSet_of_nodup (pairs : List (Str × Str)) :
    ∀ out : GoMap Str, (pairs.map Prod.fst).Nodup →
      (∀ kv ∈ pairs, ∀ e ∈ out, e.1 ≠ kv.1) →
      pairs.foldl (fun m kv => mapSet m kv.1 kv.2) out = pairs.reverse ++ out := by
  induction pairs with
  | nil => intro out _ _; rfl
  | cons kv rest ih =>
    intro out hnd hout
    rw [List.map_cons, List.nodup_cons] at hnd
    have hset : mapSet out kv.1 kv.2 = kv :: out := by
      unfold mapSet
      rw [List.filter_eq_self.mpr]
      intro e he
      simpa using hout kv (List.mem_cons_self _ _) e he
    rw [List.foldl_cons, hset, ih _ hnd.2]
    · simp
    · intro x hx e he
      rcases List.mem_cons.mp he with rfl | he
      · intro heq
        exact hnd.1 (heq ▸ List.mem_map_of_mem Prod.fst hx)
      · exact hout x (List.mem_cons_of_mem _ hx) e he

theorem lookup_of_mem_nodup (pairs : List (Str × Str)) (hnd : (pairs.map Prod.fst).Nodup) :
    ∀ kv ∈ pairs, pairs.lookup kv.1 = some kv.2 := by
  induction pairs with
  | nil => intro kv h; simp at h
  | cons p rest ih =>
    intro kv hkv
    rw [List.map_cons, List.nodup_cons] at hnd
    rw [List.lookup_cons]
    rcases List.mem_cons.mp hkv with rfl | hmem
    · simp
    · have hne : kv.1 ≠ p.1 := fun e => hnd.1 (e ▸ List.mem_map_of_mem Prod.fst hmem)
      have hb : (kv.1 == p.1) = false := by simpa using hne
      rw [hb]
      exact ih hnd.2 kv hmem

/-- The header of well-formed parameters is cut into the word `Bearer` and the parameters,
and the parameters fill the map one by one. -/
theorem parseBearer_challengeHeader (pairs : List (Str × Str)) (hn : pairs ≠ [])
    (hkeys : ∀ kv ∈ pairs, kv.1 ≠ [])
    (hchars : ∀ kv ∈ pairs, ∀ c ∈ [' ', ',', '=', dquote], c ∉ kv.1 ∧ c ∉ kv.2) :
    parseBearer (challengeHeader pairs) = pairs.foldl (fun m kv => mapSet m kv.1 kv.2) [] := by
  have hsp : ∀ kv ∈ pairs, ' ' ∉ kv.1 ∧ ' ' ∉ kv.2 :=
    fun kv h => hchars kv h ' ' (by simp)
  have hco : ∀ kv ∈ pairs, ',' ∉ kv.1 ∧ ',' ∉ kv.2 :=
    fun kv h => hchars kv h ',' (by simp)
  have heq : ∀ kv ∈ pairs, '=' ∉ kv.1 ∧ '=' ∉ kv.2 :=
    fun kv h => hchars kv h '=' (by simp)
  have hdq : ∀ kv ∈ pairs, dquote ∉ kv.1 ∧ dquote ∉ kv.2 :=
    fun kv h => hchars kv h dquote (by simp)
  have hcomma : ",".toList = [','] := rfl
  have hspace : " ".toList = [' '] := rfl
  -- the header is the word and the parameter list, joined by a space
  have hheader : challengeHeader pairs =
      List.intercalate [' ']
        ["Bearer".toList, List.intercalate [','] (pairs.map challengeParam)] := by
    rw [intercalate_cons_cons, intercalate_singleton]
    unfold challengeHeader
    rw [hcomma]
    rfl
  have hbody_space : ' ' ∉ List.intercalate [','] (pairs.map challengeParam) := by
    apply not_mem_intercalate _ _ _ (by decide)
    intro p hp
    obtain ⟨kv, hkv, rfl⟩ := List.mem_map.mp hp
    exact not_mem_challengeParam ' ' kv (hsp kv hkv).1 (hsp kv hkv).2 (by decide) (by decide)
  have hsplit1 : Split (challengeHeader pairs) " ".toList =
      ["Bearer".toList, List.intercalate [','] (pairs.map challengeParam)] := by
    rw [hspace, hheader]
    apply split_intercalate _ _ (by simp)
    intro p hp
    simp only [List.mem_cons, List.mem_singleton, List.not_mem_nil, or_false] at hp
    rcases hp with rfl | rfl
    · decide
    · exact hbody_space
  -- the parameter list is not the word `Bearer`: it has an equals sign
  have hbody_ne : List.intercalate [','] (pairs.map challengeParam) ≠ "Bearer".toList := by
    intro e
    have hmem : '=' ∈ List.intercalate [','] (pairs.map challengeParam) := by
      cases pairs with
      | nil => exact absurd rfl hn
      | cons kv rest =>
        have hparam : '=' ∈ challengeParam kv := by
          unfold challengeParam
          have : "=".toList = ['='] := rfl
          simp [this]
        cases rest with
        | nil =>
          rw [List.map_cons, List.map_nil, intercalate_singleton]
          exact hparam
        | cons q rest =>
          rw [List.map_cons, List.map_cons, intercalate_cons_cons]
          exact List.mem_append_left _ hparam
    rw [e] at hmem
    exact absurd hmem (by decide)
  have hsplit2 : Split (List.intercalate [','] (pairs.map challengeParam)) ",".toList =
      pairs.map challengeParam := by
    rw [hcomma]
    apply split_intercalate _ _ (by simpa using hn)
    intro p hp
    obtain ⟨kv, hkv, rfl⟩ := List.mem_map.mp hp
    exact not_mem_challengeParam ',' kv (hco kv hkv).1 (hco kv hkv).2 (by decide) (by decide)
  unfold parseBearer
  rw [hsplit1]
  simp only [List.foldl_cons, List.foldl_nil]
  have hfirst : parseBearerSegment [] "Bearer".toList = [] := by
    unfold parseBearerSegment; simp
  rw [hfirst]
  unfold parseBearerSegment
  rw [if_neg hbody_ne, hsplit2]
  exact foldl_parseBearerParam pairs []
    (fun kv h => ⟨hkeys kv h, (heq kv h).1, (heq kv h).2, (hdq kv h).2⟩)

/-- C12: for every list of one or more parameters `k1 = v1, ..., kn = vn` with distinct,
non-empty keys, where no key or value contains a space, a comma, an equals sign or a double
quote and no key is the word `Bearer`, `parseBearer` applied to the header
`Bearer k1="v1",k2="v2",...,kn="vn"` returns exactly the mapping of every `ki` to `vi`:
each key is present with its value without the quotes, the map has the `n` entries of
the list and no other, and the word `Bearer` is not a key of it. -/
theorem C12_parseBearer_challenge (pairs : List (Str × Str)) (hn : pairs ≠ [])
    (hdistinct : (pairs.map Prod.fst).Nodup)
    (hkeys : ∀ kv ∈ pairs, kv.1 ≠ [] ∧ kv.1 ≠ "Bearer".toList)
    (hchars : ∀ kv ∈ pairs, ∀ c ∈ [' ', ',', '=', dquote], c ∉ kv.1 ∧ c ∉ kv.2) :
    (∀ kv ∈ pairs, mapGet (parseBearer (challengeHeader pairs)) kv.1 = some kv.2) ∧
    (∀ k, k ∉ pairs.map Prod.fst → mapGet (parseBearer (challengeHeader pairs)) k = none) ∧
    mapGet (parseBearer (challengeHeader pairs)) "Bearer".toList = none ∧
    List.Perm (parseBearer (challengeHeader pairs)) pairs := by
  have hparse := parseBearer_challengeHeader pairs hn (fun kv h => (hkeys kv h).1) hchars
  have hget : ∀ k, mapGet (parseBearer (challengeHeader pairs)) k = pairs.lookup k := by
    intro k
    rw [hparse, mapGet_foldl_mapSet pairs [] k hdistinct]
    cases pairs.lookup k <;> rfl
  have hnone : ∀ k, k ∉ pairs.map Prod.fst →
      mapGet (parseBearer (challengeHeader pairs)) k = none := by
    intro k hk
    rw [hget, List.lookup_eq_none_iff]
    intro p hp
    have : p.1 ≠ k := fun e => hk (e ▸ List.mem_map_of_mem Prod.fst hp)
    simpa using fun e => this e.symm
  refine ⟨?_, hnone, ?_, ?_⟩
  · intro kv hkv
    rw [hget]
    exact lookup_of_mem_nodup pairs hdistinct kv hkv
  · apply hnone
    intro hmem
    obtain ⟨kv, hkv, he⟩ := List.mem_map.mp hmem
    exact (hkeys kv hkv).2 he
  · rw [hparse, foldl_mapSet_of_nodup pairs [] hdistinct (fun _ _ e he => absurd he (by simp)),
      List.append_nil]
    exact List.reverse_perm pairs

/-- C12 at the challenge `Bearer realm="https://auth.example/token",service="registry"`:
the hypotheses hold, and the map has `realm` and `service` with their values and no key
`Bearer`. -/
theorem C12_parseBearer_challenge_witness :
    challengeHeader exampleParams = exampleChallenge ∧
    (∀ kv ∈ exampleParams, mapGet (parseBearer (challengeHeader exampleParams)) kv.1 = some kv.2) ∧
    (∀ k, k ∉ exampleParams.map Prod.fst →
      mapGet (parseBearer (challengeHeader exampleParams)) k = none) ∧
    mapGet (parseBearer (challengeHeader exampleParams)) "Bearer".toList = none ∧
    List.Perm (parseBearer (challengeHeader exampleParams)) exampleParams ∧
    parseBearer exampleChallenge =
      [("service".toList, "registry".toList),
        ("realm".toList, "https://auth.example/token".toList)] :=
  ⟨rfl,
    (C12_parseBearer_challenge exampleParams (by decide) (by decide) (by decide)
      (by decide)).1,
    (C12_parseBearer_challenge exampleParams (by decide) (by decide) (by decide)
      (by decide)).2.1,
    (C12_parseBearer_challenge exampleParams (by decide) (by decide) (by decide)
      (by decide)).2.2.1,
    (C12_parseBearer_challenge exampleParams (by decide) (by decide) (by decide)
      (by decide)).2.2.2,
    rfl⟩

end ClairClient
